import Mathlib

/-!
Verification development for the FinMod2 spreadsheet compression core.

The Python source (Core/utils/helpers.py, Core/encoder.py, Core/compressor.py,
Core/parser.py) is shallowly embedded below:

* Python `str` is Lean `String`, with all computations carried out on the
  underlying `List Char` (code points), matching CPython string semantics
  for the code-point ranges this program manipulates.
* Python `int` on the non-negative values used by the addressing code is `Nat`.
* Python lists/dicts are Lean lists / insertion-ordered association lists
  (CPython dicts preserve insertion order; updating an existing key keeps
  its position, which `dictSet` below replicates).
* Python floats appear in the code only through `float.is_integer()` and
  `str(float)`; a float value is therefore modelled by the pair of those two
  observations (`PyFloat`): its `repr` string and its `is_integer` flag.
* Functions that raise are modelled with `Except PyErr`.
-/

set_option maxRecDepth 8192

/-! ### Character primitives (ASCII fragment of `str.isdigit` / `str.isalpha`) -/

/-- Model of Python `c.isdigit()` on the ASCII range (the only characters the
addressing code produces). -/
def pyIsDigit (c : Char) : Bool := 48 ≤ c.toNat && c.toNat ≤ 57

/-- Model of Python `c.isalpha()` on the ASCII range. -/
def pyIsAlpha (c : Char) : Bool :=
  (65 ≤ c.toNat && c.toNat ≤ 90) || (97 ≤ c.toNat && c.toNat ≤ 122)

/-- Model of Python `c.upper()` for a single character (ASCII range),
mirroring `Char.toUpper`'s arithmetic on code points. -/
def pyToUpper (c : Char) : Char :=
  if 97 ≤ c.toNat && c.toNat ≤ 122 then Char.ofNat (c.toNat - 32) else c

theorem char_ofNat_toNat {n : Nat} (h : n < 55296) : (Char.ofNat n).toNat = n := by
  have hv : n.isValidChar := Or.inl h
  rw [Char.ofNat, dif_pos hv]
  rfl

theorem char_eq_of_toNat_eq {a b : Char} (h : a.toNat = b.toNat) : a = b :=
  Char.ext (UInt32.ext h)

theorem pyToUpper_of_upper {c : Char} (h : c.toNat ≤ 90) : pyToUpper c = c := by
  unfold pyToUpper
  have : ¬ (97 ≤ c.toNat && c.toNat ≤ 122) = true := by
    simp only [Bool.and_eq_true, decide_eq_true_eq]
    omega
  simp [this]

/-! ### Decimal rendering of a natural number: model of Python `str(n)` for `n ≥ 0`.

Implemented with explicit fuel so that the definition is structurally
recursive (and hence evaluates inside `decide`/`rfl`); `natDigitsGo f n acc`
agrees with the obvious recursion whenever `n ≤ f`. -/

def natDigitsGo : Nat → Nat → List Char → List Char
  | _, 0, acc => acc
  | 0, _ + 1, acc => acc
  | f + 1, m + 1, acc =>
      natDigitsGo f ((m + 1) / 10) (Char.ofNat (48 + (m + 1) % 10) :: acc)

/-- Decimal digit list of `n` (most significant first); `[]` for `0`. -/
def natDigits (n : Nat) : List Char := natDigitsGo n n []

/-- Model of Python `str(n)` for a non-negative int. -/
def pyNatRepr (n : Nat) : String := if n = 0 then "0" else ⟨natDigits n⟩

/-- Model of Python `int(s)` on a plain string of decimal digits. -/
def pyIntOfDigits (l : List Char) : Nat :=
  l.foldl (fun a c => a * 10 + (c.toNat - 48)) 0

/-! ### helpers.py : column letters and cell addresses -/

/-- Fuel-driven worker for `get_column_letter`; mirrors the Python
`while col_idx > 0: col_idx, remainder = divmod(col_idx - 1, 26);
result = chr(65 + remainder) + result` loop.  `colLetterGo f n acc` agrees
with the loop whenever `n ≤ f`. -/
def colLetterGo : Nat → Nat → List Char → List Char
  | _, 0, acc => acc
  | 0, _ + 1, acc => acc
  | f + 1, m + 1, acc =>
      colLetterGo f (m / 26) (Char.ofNat (65 + m % 26) :: acc)

/-- Character list of the Excel column name of index `n` (`1 → A`, `27 → AA`). -/
def colLetterList (n : Nat) : List Char := colLetterGo n n []

/-- `get_column_letter` from helpers.py. -/
def get_column_letter (n : Nat) : String := ⟨colLetterList n⟩

/-- `get_column_index` from helpers.py:
`result = result * 26 + (ord(char.upper()) - 64)` folded over the letters. -/
def get_column_index (s : String) : Nat :=
  s.data.foldl (fun r ch => r * 26 + ((pyToUpper ch).toNat - 64)) 0

/-- `_column_letter_to_number` from encoder.py — same fold as
`get_column_index` (`ord(c.upper()) - ord('A') + 1`). -/
def column_letter_to_number (s : String) : Nat :=
  s.data.foldl (fun r ch => r * 26 + ((pyToUpper ch).toNat - 64)) 0

/-- `get_cell_address` from helpers.py: `f"{get_column_letter(col)}{row}"`. -/
def get_cell_address (row col : Nat) : String :=
  get_column_letter col ++ pyNatRepr row

/-- Model of the regex match `([A-Z]+)(\d+)` anchored at the start of the
string (`re.match`): a maximal nonempty run of `A`–`Z`, then a maximal
nonempty run of digits; anything after the match is ignored, and failure to
match raises `ValueError` in the source (modelled as `none`). -/
def pyIsUpperAZ (c : Char) : Bool := 65 ≤ c.toNat && c.toNat ≤ 90

/-- `parse_cell_address` from helpers.py; `none` models the
`ValueError("Invalid cell address")` raise. -/
def parse_cell_address (address : String) : Option (Nat × Nat) :=
  let letters := address.data.takeWhile pyIsUpperAZ
  let rest := address.data.dropWhile pyIsUpperAZ
  let digits := rest.takeWhile pyIsDigit
  if letters.isEmpty || digits.isEmpty then none
  else some (pyIntOfDigits digits, get_column_index ⟨letters⟩)

/-! ### Python string comparison and `list.sort()`

CPython compares strings lexicographically by code point.  `list.sort()` is a
stable ascending sort; on lists the program sorts (distinct elements) any
stable ascending sort produces the same list, so we model it with insertion
sort. -/

/-- Lexicographic strict comparison of code-point lists (Python `s < t`). -/
def pyListLtB : List Char → List Char → Bool
  | [], [] => false
  | [], _ :: _ => true
  | _ :: _, [] => false
  | a :: as, b :: bs =>
      if a.toNat < b.toNat then true
      else if b.toNat < a.toNat then false
      else pyListLtB as bs

/-- Python `a <= b` on strings. -/
def pyStrLeB (a b : String) : Bool := !(pyListLtB b.data a.data)

/-- Propositional form of `pyStrLeB`, used as the sorting relation. -/
def pyStrLe (a b : String) : Prop := pyStrLeB a b = true

instance : DecidableRel pyStrLe := fun a b => decEq (pyStrLeB a b) true

/-- Model of Python `list.sort()` on a list of strings. -/
def pySortStrings (l : List String) : List String := List.insertionSort pyStrLe l

/-! ### encoder.py : `_compress_address_ranges` -/

/-- `''.join(c for c in addr if c.isdigit())`. -/
def digitsOf (addr : String) : String := ⟨addr.data.filter pyIsDigit⟩

/-- `''.join(c for c in addr if c.isalpha())`. -/
def alphasOf (addr : String) : String := ⟨addr.data.filter pyIsAlpha⟩

/-- The scan loop of `_compress_address_ranges`: walk the (sorted) addresses
accumulating a run of same-row, column-consecutive cells; flush a run of ≥ 3
as `first:last`, shorter runs element-wise.  `currentRange` is nonempty. -/
def compressScan : List String → List String → String → Nat → List String →
    List String
  | [], currentRange, _, _, ranges =>
      if 3 ≤ currentRange.length then
        ranges ++ [currentRange.headI ++ ":" ++ currentRange.getLastI]
      else ranges ++ currentRange
  | addr :: rest, currentRange, currentRow, currentColNum, ranges =>
      let row := digitsOf addr
      let colNum := column_letter_to_number (alphasOf addr)
      if row = currentRow ∧ colNum = currentColNum + 1 then
        compressScan rest (currentRange ++ [addr]) currentRow colNum ranges
      else
        let newRanges :=
          if 3 ≤ currentRange.length then
            ranges ++ [currentRange.headI ++ ":" ++ currentRange.getLastI]
          else ranges ++ currentRange
        compressScan rest [addr] row colNum newRanges

/-- `_compress_address_ranges` from encoder.py. -/
def compress_address_ranges (addresses : List String) : List String :=
  match pySortStrings addresses with
  | [] => []
  | a0 :: rest =>
      compressScan rest [a0] (digitsOf a0)
        (column_letter_to_number (alphasOf a0)) []

example : compress_address_ranges [] = [] := by rfl
example : compress_address_ranges ["B1", "C1", "A1"] = ["A1:C1"] := by rfl
example : compress_address_ranges ["B1", "A1"] = ["A1", "B1"] := by rfl
example : compress_address_ranges ["Y1", "Z1", "AA1"] = ["AA1", "Y1", "Z1"] := by
  rfl
example : compress_address_ranges ["A1", "A2", "A3"] = ["A1", "A2", "A3"] := by
  rfl
example : compress_address_ranges ["A1", "B1", "C1", "E1", "F1", "G1"] =
    ["A1:C1", "E1:G1"] := by rfl

example : get_column_letter 1 = "A" := by rfl
example : get_column_letter 26 = "Z" := by rfl
example : get_column_letter 27 = "AA" := by rfl
example : get_column_letter 28 = "AB" := by rfl
example : get_cell_address 10 27 = "AA10" := by rfl
example : get_column_index "AA" = 27 := by rfl
example : parse_cell_address "AA10" = some (10, 27) := by rfl
example : parse_cell_address "a1" = none := by rfl
example : pyNatRepr 120 = "120" := by rfl

/-! ### Python whitespace / numeric-string primitives -/

/-- ASCII fragment of the whitespace stripped by Python `str.strip()`. -/
def pyIsSpace (c : Char) : Bool := c.toNat = 32 || (9 ≤ c.toNat && c.toNat ≤ 13)

/-- Python `s.strip()`. -/
def pyStrip (s : String) : String :=
  ⟨((s.data.dropWhile pyIsSpace).reverse.dropWhile pyIsSpace).reverse⟩

/-- ASCII lower-casing of a single character (Python `str.lower()`). -/
def pyToLower (c : Char) : Char :=
  if 65 ≤ c.toNat && c.toNat ≤ 90 then Char.ofNat (c.toNat + 32) else c

/-- Consume a Python numeric-literal digit run `\d(_?\d)*`: returns the
number of digits consumed and the rest.  `k` is the count consumed so far
(an underscore is only accepted between digits). -/
def digitRunGo : List Char → Nat → Nat × List Char
  | [], k => (k, [])
  | c :: rest, k =>
      if pyIsDigit c then digitRunGo rest (k + 1)
      else if c = '_' && k ≠ 0 then
        match rest with
        | d :: rest' =>
            if pyIsDigit d then digitRunGo rest' (k + 1) else (k, c :: rest)
        | [] => (k, [c])
      else (k, c :: rest)

/-- Model of CPython `float(s)` acceptance: optional surrounding whitespace,
optional sign, then either `inf`/`infinity`/`nan` (case-insensitive) or a
decimal literal `digits [. digits] [e[sign]digits]` holding at least one
mantissa digit, with underscores permitted between digits. -/
def pyFloatAccepts (s : List Char) : Bool :=
  let t := ((s.dropWhile pyIsSpace).reverse.dropWhile pyIsSpace).reverse
  let t := match t with
    | c :: rest => if c = '+' || c = '-' then rest else t
    | [] => []
  let low := t.map pyToLower
  if low = "inf".data || low = "infinity".data || low = "nan".data then true
  else
    let (intc, r1) := digitRunGo t 0
    let (frac, r2) :=
      match r1 with
      | '.' :: r1' => digitRunGo r1' 0
      | _ => (0, r1)
    if intc + frac = 0 then false
    else
      match r2 with
      | [] => true
      | e :: r3 =>
          if e = 'e' || e = 'E' then
            let r4 := match r3 with
              | c :: r3' => if c = '+' || c = '-' then r3' else r3
              | [] => []
            let (expc, r5) := digitRunGo r4 0
            expc ≠ 0 && r5.isEmpty
          else false

/-- `_is_numeric` from helpers.py: `float(value_str.replace(',', ''))`
succeeds. -/
def pyIsNumericStr (s : String) : Bool :=
  pyFloatAccepts (s.data.filter (fun c => c ≠ ','))

example : pyIsNumericStr "1,234.56" = true := by rfl
example : pyIsNumericStr "True" = false := by rfl
example : pyIsNumericStr "-5" = true := by rfl
example : pyIsNumericStr "1e5" = true := by rfl
example : pyIsNumericStr "" = false := by rfl
example : pyIsNumericStr "1_000" = true := by rfl
example : pyIsNumericStr "_1" = false := by rfl

/-! ### Data model (parser.py / constants.py) -/

inductive DataType where
  | EMPTY | INT_NUM | FLOAT_NUM | PERCENTAGE | DATE | TIME | DATETIME
  | EMAIL | PHONE | URL | TEXT | FORMULA | CURRENCY | BOOLEAN | ERROR
deriving DecidableEq

/-- `DataType.name` of the Python enum member. -/
def DataType.enumName : DataType → String
  | .EMPTY => "EMPTY" | .INT_NUM => "INT_NUM" | .FLOAT_NUM => "FLOAT_NUM"
  | .PERCENTAGE => "PERCENTAGE" | .DATE => "DATE" | .TIME => "TIME"
  | .DATETIME => "DATETIME" | .EMAIL => "EMAIL" | .PHONE => "PHONE"
  | .URL => "URL" | .TEXT => "TEXT" | .FORMULA => "FORMULA"
  | .CURRENCY => "CURRENCY" | .BOOLEAN => "BOOLEAN" | .ERROR => "ERROR"

inductive FormatType where
  | NORMAL | BOLD | ITALIC | UNDERLINE | STRIKETHROUGH | SUPERSCRIPT
  | SUBSCRIPT | CENTER_ALIGNED | LEFT_ALIGNED | RIGHT_ALIGNED
  | HIGHLIGHTED | COLORED | BORDERED | MERGED
deriving DecidableEq

/-- `FormatType.name` of the Python enum member. -/
def FormatType.enumName : FormatType → String
  | .NORMAL => "NORMAL" | .BOLD => "BOLD" | .ITALIC => "ITALIC"
  | .UNDERLINE => "UNDERLINE" | .STRIKETHROUGH => "STRIKETHROUGH"
  | .SUPERSCRIPT => "SUPERSCRIPT" | .SUBSCRIPT => "SUBSCRIPT"
  | .CENTER_ALIGNED => "CENTER_ALIGNED" | .LEFT_ALIGNED => "LEFT_ALIGNED"
  | .RIGHT_ALIGNED => "RIGHT_ALIGNED" | .HIGHLIGHTED => "HIGHLIGHTED"
  | .COLORED => "COLORED" | .BORDERED => "BORDERED" | .MERGED => "MERGED"

/-- A Python float as observed by this code base: the program only ever asks
for `str(f)` and `f.is_integer()`, so a float value is modelled by that pair
(`str` is injective on floats, so nothing is conflated). -/
structure PyFloat where
  reprStr : String
  isIntegral : Bool
deriving DecidableEq

/-- A Python cell value (the shapes `infer_data_type` distinguishes). -/
inductive Value where
  | none
  | int (n : Int)
  | float (f : PyFloat)
  | bool (b : Bool)
  | str (s : String)
deriving DecidableEq

/-- Python `str(n)` on an int. -/
def pyIntRepr (n : Int) : String :=
  if n < 0 then "-" ++ pyNatRepr n.natAbs else pyNatRepr n.natAbs

/-- Python `str(value)`. -/
def pyStr : Value → String
  | .none => "None"
  | .int n => pyIntRepr n
  | .float f => f.reprStr
  | .bool b => if b then "True" else "False"
  | .str s => s

/-- Python truthiness of a cell value (`if cell.value:`). -/
def pyTruthy : Value → Bool
  | .none => false
  | .int n => n ≠ 0
  | .float f => !(f.reprStr = "0.0" || f.reprStr = "-0.0")
  | .bool b => b
  | .str s => s ≠ ""

/-! ### helpers.py : `infer_data_type` -/

/-- `^\d{4}-\d{2}-\d{2}$`. -/
def matchIsoDate : List Char → Bool
  | [a, b, c, d, s1, e, f, s2, g, h] =>
      pyIsDigit a && pyIsDigit b && pyIsDigit c && pyIsDigit d &&
      s1 = '-' && pyIsDigit e && pyIsDigit f && s2 = '-' &&
      pyIsDigit g && pyIsDigit h
  | _ => false

/-- `^\d{1,2}SEP\d{1,2}SEP\d{2,4}$` for a separator character. -/
def matchSlashDate (sep : Char) (l : List Char) : Bool :=
  let d1 := l.takeWhile pyIsDigit
  let r1 := l.dropWhile pyIsDigit
  (1 ≤ d1.length && d1.length ≤ 2) &&
  match r1 with
  | c :: r2 =>
      c = sep &&
      (let d2 := r2.takeWhile pyIsDigit
       let r3 := r2.dropWhile pyIsDigit
       (1 ≤ d2.length && d2.length ≤ 2) &&
       match r3 with
       | c2 :: r4 =>
           c2 = sep &&
           (let d3 := r4.takeWhile pyIsDigit
            let r5 := r4.dropWhile pyIsDigit
            (2 ≤ d3.length && d3.length ≤ 4) && r5.isEmpty)
       | [] => false)
  | [] => false

/-- `infer_data_type` from helpers.py. -/
def infer_data_type : Value → DataType
  | .none => .EMPTY
  | .bool _ => .BOOLEAN
  | .int _ => .INT_NUM
  | .float _ => .FLOAT_NUM
  | .str v =>
      let value_str := pyStrip v
      if value_str = "" then .EMPTY
      else if value_str.data.getLast? = some '%' &&
          pyIsNumericStr ⟨value_str.data.dropLast⟩ then .PERCENTAGE
      else if (value_str.data.head? = some '$' || value_str.data.head? = some '€' ||
          value_str.data.head? = some '£') &&
          pyIsNumericStr ⟨value_str.data.drop 1⟩ then .CURRENCY
      else if matchIsoDate value_str.data || matchSlashDate '/' value_str.data ||
          matchSlashDate '-' value_str.data then .DATE
      else if pyIsNumericStr value_str then
        if value_str.data.contains '.' then .FLOAT_NUM else .INT_NUM
      else .TEXT

example : infer_data_type (.str "True") = .TEXT := by rfl
example : infer_data_type (.bool true) = .BOOLEAN := by rfl
example : infer_data_type (.str "5.5%") = .PERCENTAGE := by rfl
example : infer_data_type (.str "$1,000") = .CURRENCY := by rfl
example : infer_data_type (.str "2024-01-31") = .DATE := by rfl
example : infer_data_type (.str "3/4/2024") = .DATE := by rfl
example : infer_data_type (.str "123") = .INT_NUM := by rfl
example : infer_data_type (.str "1.5") = .FLOAT_NUM := by rfl
example : infer_data_type (.str "  ") = .EMPTY := by rfl

/-! ### helpers.py : `detect_number_format_string` -/

/-- `len(s.split('.')[1])`: characters after the first `'.'` up to the next
`'.'` (guarded by callers so a `'.'` is present). -/
def decimalPlacesOf (s : String) : Nat :=
  (((s.data.dropWhile (fun c => c ≠ '.')).drop 1).takeWhile
    (fun c => c ≠ '.')).length

/-- `"0" * k` (used to build `0.000…` signatures). -/
def zeroRun (k : Nat) : String := ⟨List.replicate k '0'⟩

/-- `detect_number_format_string` from helpers.py. -/
def detect_number_format_string : Value → Option String
  | .none => Option.none
  | .bool _ => Option.none
  | .int _ => some "0"
  | .float f =>
      if f.isIntegral then some "0"
      else if f.reprStr.data.contains '.' then
        some ("0." ++ zeroRun (decimalPlacesOf f.reprStr))
      else Option.none
  | .str v =>
      let value_str := pyStrip v
      if value_str.data.getLast? = some '%' &&
          pyIsNumericStr ⟨value_str.data.dropLast⟩ then some "0%"
      else if (value_str.data.head? = some '$' || value_str.data.head? = some '€' ||
          value_str.data.head? = some '£') &&
          pyIsNumericStr ⟨value_str.data.drop 1⟩ then
        if value_str.data.contains ',' then
          if value_str.data.contains '.' then some "$#,##0.00" else some "$#,##0"
        else
          if value_str.data.contains '.' then some "$0.00" else some "$0"
      else if value_str.data.contains ',' && pyIsNumericStr value_str then
        if value_str.data.contains '.' then
          some ("#,##0." ++ zeroRun (decimalPlacesOf value_str))
        else some "#,##0"
      else Option.none

example : detect_number_format_string (.int 7) = some "0" := by rfl
example : detect_number_format_string (.float ⟨"2.0", true⟩) = some "0" := by rfl
example : detect_number_format_string (.float ⟨"2.25", false⟩) = some "0.00" := by
  rfl
example : detect_number_format_string (.float ⟨"1e-05", false⟩) = Option.none := by
  rfl
example : detect_number_format_string (.str "5%") = some "0%" := by rfl
example : detect_number_format_string (.str "$1,234.50") = some "$#,##0.00" := by
  rfl
example : detect_number_format_string (.str "$1,234") = some "$#,##0" := by rfl
example : detect_number_format_string (.str "$3.5") = some "$0.00" := by rfl
example : detect_number_format_string (.str "$3") = some "$0" := by rfl
example : detect_number_format_string (.str "1,234.5") = some "#,##0.0" := by rfl
example : detect_number_format_string (.str "1,234") = some "#,##0" := by rfl
example : detect_number_format_string (.str "abc") = Option.none := by rfl
example : detect_number_format_string (.bool true) = Option.none := by rfl

/-! ### parser.py : `CellFormat`, `Cell`, `SheetMatrix` -/

/-- Truthiness of an optional string attribute (`if self.bg_color:`). -/
def pyTruthyStrOpt : Option String → Bool
  | some s => s ≠ ""
  | Option.none => false

structure CellFormat where
  formats : List FormatType
  bg_color : Option String
  font_color : Option String
  borders : List String
deriving DecidableEq

/-- Join a list of strings with a separator (Python `sep.join(parts)`). -/
def joinSep (sep : String) : List String → String
  | [] => ""
  | [x] => x
  | x :: xs => x ++ sep ++ joinSep sep xs

/-- Python `str.lower()` (ASCII). -/
def strToLower (s : String) : String := ⟨s.data.map pyToLower⟩

/-- `CellFormat.__str__` from parser.py.  `formats` and `borders` are Python
sets; their iteration order is modelled by the list order of the embedded
cell, which is the insertion order of `_extract_format`. -/
def cellFormatStr (f : CellFormat) : String :=
  let parts := f.formats.map (fun t => strToLower t.enumName)
  let parts := if pyTruthyStrOpt f.bg_color then
      parts ++ ["bg:" ++ f.bg_color.getD ""] else parts
  let parts := if pyTruthyStrOpt f.font_color then
      parts ++ ["fg:" ++ f.font_color.getD ""] else parts
  let parts := if f.borders ≠ [] then
      parts ++ ["borders:" ++ joinSep "," f.borders] else parts
  joinSep " " parts

structure Cell where
  value : Value
  data_type : DataType
  format : CellFormat
  address : String
deriving DecidableEq

structure SheetMatrix where
  matrix : List (List (Option Cell))
  merged_cells : List (Nat × Nat × Nat × Nat)
  sheet_name : String
  max_row : Nat
  max_col : Nat
deriving DecidableEq

/-- `SheetMatrix.get_cell` from parser.py: bounds-checked access that returns
`None` for any out-of-bounds coordinate.  In-bounds list indexing uses `getD`;
for the dense matrices the parser builds (`SheetMatrix.WF`) the defaults are
never consulted. -/
def SheetMatrix.get_cell (m : SheetMatrix) (row col : Nat) : Option Cell :=
  if 1 ≤ row ∧ row ≤ m.max_row ∧ 1 ≤ col ∧ col ≤ m.max_col then
    (m.matrix.getD (row - 1) []).getD (col - 1) Option.none
  else Option.none

/-- The dense-matrix shape guaranteed by `SpreadsheetParser.parse_sheet`. -/
def SheetMatrix.WF (m : SheetMatrix) : Prop :=
  m.matrix.length = m.max_row ∧ ∀ r ∈ m.matrix, r.length = m.max_col

instance (m : SheetMatrix) : Decidable m.WF := by
  unfold SheetMatrix.WF; infer_instance

/-- Row-major traversal of all coordinates, mirroring the ubiquitous
`for row in range(1, max_row + 1): for col in range(1, max_col + 1):` loops. -/
def foldCells {α : Type} (m : SheetMatrix)
    (f : α → Nat → Nat → Option Cell → α) (init : α) : α :=
  (List.range m.max_row).foldl (fun st r =>
    (List.range m.max_col).foldl (fun st' c =>
      f st' (r + 1) (c + 1) (m.get_cell (r + 1) (c + 1))) st) init

/-! ### Minimal-whitespace JSON rendering (`json.dumps(..., separators=(',', ':'))`) -/

def hexDigitChar (n : Nat) : Char :=
  if n < 10 then Char.ofNat (48 + n) else Char.ofNat (87 + n)

def hex4 (n : Nat) : List Char :=
  [hexDigitChar (n / 4096 % 16), hexDigitChar (n / 256 % 16),
   hexDigitChar (n / 16 % 16), hexDigitChar (n % 16)]

/-- Escaping performed by Python `json.dumps` with default `ensure_ascii`. -/
def jsonEscapeChar (c : Char) : List Char :=
  if c = '"' then ['\\', '"']
  else if c = '\\' then ['\\', '\\']
  else if c = '\n' then ['\\', 'n']
  else if c = '\t' then ['\\', 't']
  else if c = '\r' then ['\\', 'r']
  else if c.toNat = 8 then ['\\', 'b']
  else if c.toNat = 12 then ['\\', 'f']
  else if c.toNat < 32 || 127 ≤ c.toNat then
    if c.toNat < 65536 then '\\' :: 'u' :: hex4 c.toNat
    else
      ('\\' :: 'u' :: hex4 (55296 + (c.toNat - 65536) / 1024)) ++
      ('\\' :: 'u' :: hex4 (56320 + (c.toNat - 65536) % 1024))
  else [c]

def jsonStr (s : String) : String :=
  ⟨'"' :: s.data.foldr (fun c acc => jsonEscapeChar c ++ acc) ['"']⟩

/-- A JSON value as used by the two encoders: a list of range strings, or the
integer `__empty_cells` count. -/
inductive JVal where
  | arr (rs : List String)
  | num (n : Nat)
deriving DecidableEq

def renderJVal : JVal → String
  | .arr rs => "[" ++ joinSep "," (rs.map jsonStr) ++ "]"
  | .num n => pyNatRepr n

/-- `json.dumps(d, separators=(',', ':'))` over an insertion-ordered dict. -/
def jsonDumpsMin (entries : List (String × JVal)) : String :=
  "\x7b" ++
    joinSep "," (entries.map (fun kv => jsonStr kv.1 ++ ":" ++ renderJVal kv.2)) ++
    "\x7d"

/-! ### CPython dict primitives -/

/-- `defaultdict(list)` append: `d[k].append(a)` — updating keeps the key's
position, a fresh key is appended at the end. -/
def dictAppend : List (String × List String) → String → String →
    List (String × List String)
  | [], k, a => [(k, [a])]
  | (k', as) :: rest, k, a =>
      if k' = k then (k', as ++ [a]) :: rest
      else (k', as) :: dictAppend rest k a

/-- Plain dict assignment `d[k] = v` (position preserved on update). -/
def dictSet {V : Type} : List (String × V) → String → V → List (String × V)
  | [], k, v => [(k, v)]
  | (k', v') :: rest, k, v =>
      if k' = k then (k', v) :: rest
      else (k', v') :: dictSet rest k v

/-! ### encoder.py : inverted index -/

/-- `key.split(":", 1)[1]`. -/
def stripTypePrefix (key : String) : String :=
  ⟨(key.data.dropWhile (fun c => c ≠ ':')).drop 1⟩

/-- `_generate_inverted_index_text` from encoder.py. -/
def generate_inverted_index_text (m : SheetMatrix) : String :=
  let step := fun (st : List (String × List String) × Nat) r c (oc : Option Cell) =>
    match oc with
    | some cell =>
        if cell.value ≠ Value.none then
          let pfx :=
            if cell.data_type = .INT_NUM ∨ cell.data_type = .FLOAT_NUM then "N"
            else ⟨cell.data_type.enumName.data.take 1⟩
          let key := pfx ++ ":" ++ pyStr cell.value
          (dictAppend st.1 key (get_cell_address r c), st.2)
        else (st.1, st.2 + 1)
    | Option.none => (st.1, st.2 + 1)
  let vtc := foldCells m step ([], 0)
  let compressed := vtc.1.foldl (fun d kv =>
      dictSet d (stripTypePrefix kv.1)
        (JVal.arr (compress_address_ranges kv.2))) []
  let compressed :=
    if 0 < vtc.2 then dictSet compressed "__empty_cells" (.num vtc.2)
    else compressed
  jsonDumpsMin compressed

/-! ### encoder.py : `_find_rectangles` -/

structure CoordEntry where
  row : Nat
  col : Nat
  addr : String
deriving DecidableEq

/-- Parsing an address into `(row, col, addr)` as `_find_rectangles` does. -/
def parse_coord (addr : String) : CoordEntry :=
  { row := pyIntOfDigits (addr.data.filter pyIsDigit),
    col := column_letter_to_number (alphasOf addr),
    addr := addr }

/-- Python tuple comparison on `(row, col, addr)`. -/
def coordLeB (a b : CoordEntry) : Bool :=
  decide (a.row < b.row) ||
    (decide (a.row = b.row) &&
      (decide (a.col < b.col) ||
        (decide (a.col = b.col) && pyStrLeB a.addr b.addr)))

def coordLe (a b : CoordEntry) : Prop := coordLeB a b = true

instance : DecidableRel coordLe := fun a b => decEq (coordLeB a b) true

/-- The `max_width` scan: walk the coordinates after the corner, extending
while the next expected `(start_row, start_col + max_width)` cell is present
and unclaimed; stop at the first coordinate of a later row. -/
def widthScan (sr sc : Nat) : List CoordEntry → Nat → List String → Nat
  | [], w, _ => w
  | e :: rest, w, remaining =>
      if e.row = sr ∧ e.col = sc + w ∧ e.addr ∈ remaining then
        widthScan sr sc rest (w + 1) remaining
      else if sr < e.row then w
      else widthScan sr sc rest w remaining

/-- One row of the height check: every one of the `w` cells of row `r` exists
in `all` (first match, as the linear scan in the source) and is unclaimed. -/
def rowOkB (all : List CoordEntry) (r sc w : Nat) (remaining : List String) :
    Bool :=
  (List.range w).all (fun j =>
    match all.find? (fun e2 => decide (e2.row = r) && decide (e2.col = sc + j)) with
    | some e2 => decide (e2.addr ∈ remaining)
    | Option.none => false)

/-- `for height in range(1, 100)` with `max_height = height + 1` on success
and `break` on failure; `fuel` counts the remaining iterations. -/
def heightScanGo (all : List CoordEntry) (sr sc w : Nat)
    (remaining : List String) : Nat → Nat → Nat
  | height, 0 => height
  | height, fuel + 1 =>
      if rowOkB all (sr + height) sc w remaining then
        heightScanGo all sr sc w remaining (height + 1) fuel
      else height

def heightScan (all : List CoordEntry) (sr sc w : Nat)
    (remaining : List String) : Nat :=
  heightScanGo all sr sc w remaining 1 99

/-- The main corner loop of `_find_rectangles`: `all` is the full sorted
coordinate list (used by the height check and the claiming pass), the first
list argument is the tail being iterated, `remaining` the unclaimed address
set, and the accumulator collects emitted rectangle strings. -/
def rectLoop (all : List CoordEntry) :
    List CoordEntry → List String → List String → List String × List String
  | [], remaining, rects => (rects, remaining)
  | e :: rest, remaining, rects =>
      if e.addr ∈ remaining then
        let w := widthScan e.row e.col rest 1 remaining
        if w < 2 then rectLoop all rest remaining rects
        else
          let h := heightScan all e.row e.col w remaining
          if h < 2 then rectLoop all rest remaining rects
          else
            let endAddr := get_cell_address (e.row + h - 1) (e.col + w - 1)
            let remaining' := remaining.filter (fun a =>
              !(all.any (fun e2 => decide (e2.addr = a) &&
                  decide (e.row ≤ e2.row) && decide (e2.row ≤ e.row + h - 1) &&
                  decide (e.col ≤ e2.col) && decide (e2.col ≤ e.col + w - 1))))
            rectLoop all rest remaining' (rects ++ [e.addr ++ ":" ++ endAddr])
      else rectLoop all rest remaining rects

/-- Sorted coordinates and the `(rectangles, remaining)` result of the corner
loop.  (The Python `remaining` is a `set`; it is modelled by a duplicate-free
list — the inputs this is invoked on are duplicate-free — and only membership
and emptiness are consumed.) -/
def find_rectangles_core (addresses : List String) :
    List String × List String :=
  let coordinates := List.insertionSort coordLe (addresses.map parse_coord)
  rectLoop coordinates coordinates (coordinates.map CoordEntry.addr) []

/-- `_find_rectangles` from encoder.py. -/
def find_rectangles (addresses : List String) : List String :=
  if addresses.length < 4 then []
  else
    let res := find_rectangles_core addresses
    res.1 ++ (if res.2.isEmpty then [] else compress_address_ranges res.2)

example : find_rectangles ["A1", "B1", "A2", "B2"] = ["A1:B2"] := by rfl
example : find_rectangles ["A1", "B1", "A2", "B2", "C5"] = ["A1:B2", "C5"] := by
  rfl
example : find_rectangles ["A1", "B1", "C1"] = [] := by rfl
example : find_rectangles ["A1", "B1", "C1", "E9"] = ["A1:C1", "E9"] := by rfl

/-! ### encoder.py : format aggregation, plain sections, headers -/

/-- `_generate_aggregated_format_section` from encoder.py. -/
def generate_aggregated_format_section (m : SheetMatrix) : String :=
  let step := fun (st : List (String × List String) × List (String × List String))
      r c (oc : Option Cell) =>
    match oc with
    | some cell =>
        if cell.value ≠ Value.none then
          let cell_address := get_cell_address r c
          let dt :=
            if cell.data_type = .INT_NUM ∨ cell.data_type = .FLOAT_NUM ∨
                cell.data_type = .PERCENTAGE ∨ cell.data_type = .CURRENCY then
              match detect_number_format_string cell.value with
              | some fs => dictAppend st.2 ("NFS:" ++ fs) cell_address
              | Option.none => st.2
            else st.2
          let fg :=
            let format_str := cellFormatStr cell.format
            if format_str ≠ "" then dictAppend st.1 format_str cell_address
            else st.1
          (fg, dt)
        else st
    | Option.none => st
  let groups := foldCells m step ([], [])
  let compressGroup := fun (addresses : List String) =>
    if 5 < addresses.length then
      let rectangles := find_rectangles addresses
      if rectangles.isEmpty then compress_address_ranges addresses
      else rectangles
    else compress_address_ranges addresses
  let agg := groups.1.foldl (fun d kv =>
      dictSet d ("FMT:" ++ kv.1) (JVal.arr (compressGroup kv.2))) []
  let agg := groups.2.foldl (fun d kv =>
      dictSet d kv.1 (JVal.arr (compressGroup kv.2))) agg
  jsonDumpsMin agg

/-- `_generate_text_section` from encoder.py. -/
def generate_text_section (m : SheetMatrix) : String :=
  joinSep "\n" ((List.range m.max_row).map (fun r =>
    joinSep "|" ((List.range m.max_col).map (fun c =>
      match m.get_cell (r + 1) (c + 1) with
      | some cell =>
          if cell.value ≠ Value.none then
            get_cell_address (r + 1) (c + 1) ++ "," ++ pyStr cell.value
          else get_cell_address (r + 1) (c + 1) ++ ","
      | Option.none => get_cell_address (r + 1) (c + 1) ++ ","))))

/-- `_generate_format_section` from encoder.py (the `if cell and cell.format:`
guard reduces to cell presence: a dataclass instance is always truthy). -/
def generate_format_section (m : SheetMatrix) : String :=
  joinSep "\n" ((List.range m.max_row).map (fun r =>
    joinSep "|" ((List.range m.max_col).map (fun c =>
      match m.get_cell (r + 1) (c + 1) with
      | some cell =>
          let format_str := joinSep "," (cell.format.formats.map FormatType.enumName)
          let format_str := if pyTruthyStrOpt cell.format.bg_color then
              format_str ++ ",Fill Color" else format_str
          let format_str := if pyTruthyStrOpt cell.format.font_color then
              format_str ++ ",Font Color" else format_str
          let format_str := if cell.format.borders ≠ [] then
              format_str ++ "," ++
                joinSep "," (cell.format.borders.map (fun b => b ++ " Border"))
            else format_str
          get_cell_address (r + 1) (c + 1) ++ "," ++ format_str
      | Option.none => get_cell_address (r + 1) (c + 1) ++ ","))))

/-- `_generate_header` from encoder.py. -/
def generate_header (m : SheetMatrix) : String :=
  "# Sheet: " ++ m.sheet_name ++ "\nDimensions: " ++ pyNatRepr m.max_row ++
    "x" ++ pyNatRepr m.max_col

/-! ### encoder.py : `encode_sheet` and the chunked fallback

The token estimator (`estimate_tokens`, tiktoken-backed) is an external
collaborator; per §6 of the specification it is a pluggable
`estimate(text) -> int`, so every encoding entry point is parameterised by
`est : String → Nat`. -/

/-- The `len(text) // 4` fallback estimator from helpers.py, used as a
concrete conforming instance. -/
def fallback_token_estimate (s : String) : Nat := s.data.length / 4

structure EncoderCfg where
  max_tokens : Nat := 4000
  use_inverted_index : Bool := true
  use_format_aggregation : Bool := true
deriving DecidableEq

inductive PyErr where
  | valueError (msg : String)
  | keyError (key : String)
  | nameError (msg : String)
deriving DecidableEq

/-- The output assembled by the direct (non-chunked) path of `encode_sheet`. -/
def direct_encoding (cfg : EncoderCfg) (m : SheetMatrix) : String :=
  let header := generate_header m
  let text_section :=
    if cfg.use_inverted_index then generate_inverted_index_text m
    else generate_text_section m
  let format_section :=
    if cfg.use_format_aggregation then generate_aggregated_format_section m
    else generate_format_section m
  header ++ "\n\nText Input:\n" ++ text_section ++ "\n\nFormat Input:\n" ++
    format_section

/-- `f"Encoded sheet exceeds token limit: {token_count} > {self.max_tokens}"`. -/
def budget_exceeded_message (token_count max_tokens : Nat) : String :=
  "Encoded sheet exceeds token limit: " ++ pyNatRepr token_count ++ " > " ++
    pyNatRepr max_tokens

/-- The direct (non-chunked) path of `encode_sheet`: assemble the encoding,
return it when the estimated token count is within `max_tokens`, otherwise
raise `ValueError` (the budget-exceeded error caught by the chunking
fallback). -/
def encode_direct (est : String → Nat) (cfg : EncoderCfg) (m : SheetMatrix) :
    Except PyErr String :=
  let encoded := direct_encoding cfg m
  let token_count := est encoded
  if token_count ≤ cfg.max_tokens then .ok encoded
  else .error (.valueError (budget_exceeded_message token_count cfg.max_tokens))

/-- Python `set.add` on an insertion-ordered duplicate-free list. -/
def pySetAdd (s : List Nat) (x : Nat) : List Nat := if x ∈ s then s else s ++ [x]

/-- `_detect_header_rows` from encoder.py. -/
def detect_header_rows (m : SheetMatrix) : List Nat :=
  let header_rows : List Nat := if 0 < m.max_row then pySetAdd [] 1 else []
  (List.range (min 10 m.max_row)).foldl (fun hr r =>
    let row := r + 1
    let stats := (List.range m.max_col).foldl
      (fun (st : Bool × Bool × Nat × Nat) c =>
        match m.get_cell row (c + 1) with
        | some cell =>
            if cell.value ≠ Value.none then
              ((st.1 || decide (FormatType.BOLD ∈ cell.format.formats)),
               (st.2.1 || decide (cell.format.borders ≠ [])),
               (if cell.data_type = .TEXT then st.2.2.1 + 1 else st.2.2.1),
               st.2.2.2 + 1)
            else st
        | Option.none => st) (false, false, 0, 0)
    if (stats.1 || stats.2.1) &&
        (decide (0 < stats.2.2.2) &&
         decide ((1 / 2 : ℚ) ≤ (stats.2.2.1 : ℚ) / (stats.2.2.2 : ℚ))) then
      pySetAdd hr row
    else hr) header_rows

/-- `_create_sub_matrix` from encoder.py. -/
def create_sub_matrix (m : SheetMatrix) (rows_to_include : List Nat) :
    SheetMatrix :=
  { matrix := (List.range m.max_row).map (fun r =>
      if (r + 1) ∈ rows_to_include then
        (List.range m.max_col).map (fun c => m.get_cell (r + 1) (c + 1))
      else List.replicate m.max_col Option.none),
    merged_cells := m.merged_cells,
    sheet_name := m.sheet_name,
    max_row := m.max_row,
    max_col := m.max_col }

/-- `_chunk_encode_sheet` from encoder.py.  (No per-chunk token budget is
enforced, so the estimator is not consulted here — exactly as in the
source.) -/
def chunk_encode_sheet (cfg : EncoderCfg)
    (m : SheetMatrix) (header : String) : String :=
  let header_rows := detect_header_rows m
  let max_body_rows := m.max_row - header_rows.length
  let rows_per_chunk := min (max 20 (cfg.max_tokens / 100)) 200
  let num_chunks := (max_body_rows + rows_per_chunk - 1) / rows_per_chunk
  let header_indices := List.insertionSort (· ≤ ·) header_rows
  let start_row := match header_indices.getLast? with
    | some last => max (last + 1) 1
    | Option.none => 1
  let chunks := (List.range num_chunks).filterMap (fun chunk_idx =>
    let chunk_start := start_row + chunk_idx * rows_per_chunk
    let chunk_end := min (chunk_start + rows_per_chunk - 1) m.max_row
    if m.max_row < chunk_start then Option.none
    else
      let rows_to_include := header_indices ++
        (List.range (chunk_end + 1 - chunk_start)).map (chunk_start + ·)
      let chunk_matrix := create_sub_matrix m rows_to_include
      let chunk_text :=
        if cfg.use_inverted_index then generate_inverted_index_text chunk_matrix
        else generate_text_section chunk_matrix
      let chunk_format :=
        if cfg.use_format_aggregation then
          generate_aggregated_format_section chunk_matrix
        else generate_format_section chunk_matrix
      some ("Chunk " ++ pyNatRepr (chunk_idx + 1) ++ "/" ++ pyNatRepr num_chunks ++
        " (rows " ++ pyNatRepr chunk_start ++ "-" ++ pyNatRepr chunk_end ++
        "):\n\nText Input:\n" ++ chunk_text ++ "\n\nFormat Input:\n" ++
        chunk_format))
  header ++ "\n\n" ++ joinSep "\n\n---\n\n" chunks

/-- `encode_sheet` from encoder.py: try the direct path; the `except
ValueError` clause falls back to the chunked encoding. -/
def encode_sheet (est : String → Nat) (cfg : EncoderCfg) (m : SheetMatrix) :
    String :=
  match encode_direct est cfg m with
  | .ok encoded => encoded
  | .error _ => chunk_encode_sheet cfg m (generate_header m)

/-! ### compressor.py : structural anchor strategy

Scores are Python floats whose summands are small half-integers plus the
non-numeric ratio; they are modelled exactly in `ℚ` (the threshold comparisons
the code performs are exact for these values except for sub-ulp knife-edge
cases of the `nonumeric_ratio` division, which no theorem below depends on). -/

/-- `set`-insertion for the distinct stringified values of a row/column. -/
def pyStrSetAdd (s : List String) (x : String) : List String :=
  if x ∈ s then s else s ++ [x]

/-- Per-row statistics of `_find_anchor_rows`:
(distinct stringified values, has_borders, has_colors, has_emphasis). -/
def rowStats (m : SheetMatrix) (row : Nat) :
    List String × Bool × Bool × Bool :=
  (List.range m.max_col).foldl (fun st c =>
    match m.get_cell row (c + 1) with
    | some cell =>
        if cell.value ≠ Value.none then
          (pyStrSetAdd st.1 (pyStr cell.value),
           st.2.1 || decide (cell.format.borders ≠ []),
           st.2.2.1 || (pyTruthyStrOpt cell.format.bg_color ||
             pyTruthyStrOpt cell.format.font_color),
           st.2.2.2 || decide (FormatType.BOLD ∈ cell.format.formats ∨
             FormatType.ITALIC ∈ cell.format.formats))
        else st
    | Option.none => st) ([], false, false, false)

/-- Row heterogeneity score (`value_changes * 2.0 + 1.5·borders + 1.0·colors
+ 1.0·emphasis`). -/
def rowScoreQ (m : SheetMatrix) (row : Nat) : ℚ :=
  let st := rowStats m row
  (st.1.length : ℚ) * 2 + (if st.2.1 then (3 : ℚ) / 2 else 0) +
    (if st.2.2.1 then 1 else 0) + (if st.2.2.2 then 1 else 0)

/-- `_find_anchor_rows` from compressor.py. -/
def find_anchor_rows (m : SheetMatrix) : List Nat :=
  let base := (List.range m.max_row).foldl (fun acc r =>
    if (3 : ℚ) ≤ rowScoreQ m (r + 1) then pySetAdd acc (r + 1) else acc) []
  let base :=
    if 0 < m.max_row then pySetAdd (pySetAdd base 1) m.max_row else base
  if base.length < 3 ∧ 5 < m.max_row then
    (List.range m.max_row).foldl (fun acc r =>
      if (2 : ℚ) ≤ rowScoreQ m (r + 1) then pySetAdd acc (r + 1) else acc) base
  else base

/-- Per-column statistics of `_find_anchor_cols`: (distinct stringified
values, borders, colors, emphasis, non-numeric count, total populated). -/
def colStats (m : SheetMatrix) (col : Nat) :
    List String × Bool × Bool × Bool × Nat × Nat :=
  (List.range m.max_row).foldl (fun st r =>
    match m.get_cell (r + 1) col with
    | some cell =>
        if cell.value ≠ Value.none then
          (pyStrSetAdd st.1 (pyStr cell.value),
           st.2.1 || decide (cell.format.borders ≠ []),
           st.2.2.1 || (pyTruthyStrOpt cell.format.bg_color ||
             pyTruthyStrOpt cell.format.font_color),
           st.2.2.2.1 || decide (FormatType.BOLD ∈ cell.format.formats ∨
             FormatType.ITALIC ∈ cell.format.formats),
           (if cell.data_type ≠ .INT_NUM ∧ cell.data_type ≠ .FLOAT_NUM then
             st.2.2.2.2.1 + 1 else st.2.2.2.2.1),
           st.2.2.2.2.2 + 1)
        else st
    | Option.none => st) ([], false, false, false, 0, 0)

/-- Column heterogeneity score (diversity weight 1.5, plus
`nonumeric_ratio * 3.0`). -/
def colScoreQ (m : SheetMatrix) (col : Nat) : ℚ :=
  let st := colStats m col
  let nonumeric_ratioQ : ℚ :=
    if st.2.2.2.2.2 ≠ 0 then (st.2.2.2.2.1 : ℚ) / (st.2.2.2.2.2 : ℚ) else 0
  (st.1.length : ℚ) * (3 / 2) + nonumeric_ratioQ * 3 +
    (if st.2.1 then (3 : ℚ) / 2 else 0) + (if st.2.2.1 then 1 else 0) +
    (if st.2.2.2.1 then 1 else 0)

/-- `_find_anchor_cols` from compressor.py. -/
def find_anchor_cols (m : SheetMatrix) : List Nat :=
  let base := (List.range m.max_col).foldl (fun acc c =>
    if (3 : ℚ) ≤ colScoreQ m (c + 1) then pySetAdd acc (c + 1) else acc) []
  let base :=
    if 0 < m.max_col then pySetAdd (pySetAdd base 1) m.max_col else base
  if base.length < 3 ∧ 5 < m.max_col then
    (List.range m.max_col).foldl (fun acc c =>
      if (2 : ℚ) ≤ colScoreQ m (c + 1) then pySetAdd acc (c + 1) else acc) base
  else base

/-- `_expand_anchors` from compressor.py. -/
def expand_anchors (anchor_proximity : Nat) (anchors : List Nat)
    (max_index : Nat) : List Nat :=
  anchors.foldl (fun expanded anchor =>
    (List.range anchor_proximity).foldl (fun ex i0 =>
      let i := i0 + 1
      let ex := if i + 1 ≤ anchor then pySetAdd ex (anchor - i) else ex
      if anchor + i ≤ max_index then pySetAdd ex (anchor + i) else ex)
      expanded) anchors

/-- The retained row set of `StructuralAnchorStrategy.apply`. -/
def anchor_rows_to_keep (anchor_proximity : Nat) (m : SheetMatrix) :
    List Nat :=
  expand_anchors anchor_proximity (find_anchor_rows m) m.max_row

/-- The retained column set of `StructuralAnchorStrategy.apply`. -/
def anchor_cols_to_keep (anchor_proximity : Nat) (m : SheetMatrix) :
    List Nat :=
  expand_anchors anchor_proximity (find_anchor_cols m) m.max_col

/-- `StructuralAnchorStrategy.apply` from compressor.py. -/
def structural_anchor_apply (anchor_proximity : Nat) (m : SheetMatrix) :
    SheetMatrix :=
  let rows_to_keep := anchor_rows_to_keep anchor_proximity m
  let cols_to_keep := anchor_cols_to_keep anchor_proximity m
  { matrix := (List.range m.max_row).map (fun r =>
      if (r + 1) ∈ rows_to_keep then
        (List.range m.max_col).map (fun c =>
          if (c + 1) ∈ cols_to_keep then m.get_cell (r + 1) (c + 1)
          else Option.none)
      else List.replicate m.max_col Option.none),
    merged_cells := m.merged_cells.filter (fun q =>
      (decide (q.1 ∈ rows_to_keep) || decide (q.2.2.1 ∈ rows_to_keep)) &&
      (decide (q.2.1 ∈ cols_to_keep) || decide (q.2.2.2 ∈ cols_to_keep))),
    sheet_name := m.sheet_name,
    max_row := m.max_row,
    max_col := m.max_col }

/-! ### compressor.py : `extract_metadata` -/

/-- Python `needle in hay` on strings: contiguous substring test. -/
def subStrIn (needle : List Char) : List Char → Bool
  | [] => needle.isEmpty
  | c :: rest => needle.isPrefixOf (c :: rest) || subStrIn needle rest

structure Metadata where
  dimensions : String
  headers : List String
  data_types : List String
  key_metrics : List String
deriving DecidableEq

/-- The per-cell body of `extract_metadata`'s data loop (state: collected
`data_types` in insertion order, collected `key_metrics`). -/
def extract_metadata_step (st : Except PyErr (List String × List String))
    (_r _c : Nat) (oc : Option Cell) :
    Except PyErr (List String × List String) :=
  match st with
  | .error e => .error e
  | .ok dtm =>
      match oc with
      | some cell =>
          if pyTruthy cell.value then
            let dts := pyStrSetAdd dtm.1 cell.data_type.enumName
            if cell.data_type = .DATE ∨ cell.data_type = .DATETIME then
              .error (.keyError "min")
            else
              let v := pyStr cell.value
              let metrics :=
                if ["revenue", "income", "expense", "profit", "loss"].any
                    (fun kw => subStrIn kw.data (strToLower v).data) then
                  dtm.2 ++ [v]
                else dtm.2
              .ok (dts, metrics)
          else .ok dtm
      | Option.none => .ok dtm

/-- `extract_metadata` from compressor.py.  `metadata["date_ranges"]` is
initialised to the empty dict and the `if "date_ranges" not in metadata:`
re-initialisation guard can never fire, so on the first truthy cell whose
data type is DATE or DATETIME the lookup
`metadata["date_ranges"]["min"]` raises `KeyError: 'min'`.  The
`data_types` Python set is modelled in insertion order. -/
def extract_metadata (m : SheetMatrix) : Except PyErr Metadata :=
  let headers :=
    if 0 < m.max_row then
      (List.range m.max_col).filterMap (fun c =>
        match m.get_cell 1 (c + 1) with
        | some cell =>
            if pyTruthy cell.value then some (pyStr cell.value) else Option.none
        | Option.none => Option.none)
    else []
  let res := foldCells m extract_metadata_step (.ok ([], []))
  match res with
  | .error e => .error e
  | .ok dtm =>
      .ok { dimensions := pyNatRepr m.max_row ++ "x" ++ pyNatRepr m.max_col,
            headers := headers, data_types := dtm.1, key_metrics := dtm.2 }

/-! ### compressor.py : `compress_with_best_method` -/

/-- The four trial configurations of §4.5, in source order:
`(name, (use_structural_anchors, use_inverted_index, use_format_aggregation))`. -/
def methodConfigs : List (String × Bool × Bool × Bool) :=
  [("combined", true, true, true),
   ("module3", false, false, true),
   ("module2", false, true, false),
   ("module1", true, false, false)]

/-- One iteration body of the trial loop: configure the encoder, optionally
run the anchor strategy (`SheetCompressor` is constructed with the default
`anchor_proximity = 4`), and encode.  In the source any exception escaping
this body is caught by the per-configuration `except`; the loop below is
therefore stated over an arbitrary `attempt` function with this one as the
concrete instance. -/
def method_attempt (est : String → Nat) (max_tokens : Nat) (m : SheetMatrix) :
    Bool × Bool × Bool → Except PyErr String :=
  fun ps =>
    let cfg : EncoderCfg :=
      { max_tokens := max_tokens,
        use_inverted_index := ps.2.1,
        use_format_aggregation := ps.2.2 }
    if ps.1 then .ok (encode_sheet est cfg (structural_anchor_apply 4 m))
    else .ok (encode_sheet est cfg m)

/-- `best_ratio` starts as `float('inf')`: an empty best always compares
larger. -/
def betterThanBest (r : ℚ) : Option (String × ℚ × String) → Bool
  | Option.none => true
  | some b => decide (r < b.2.1)

/-- The `for method_name, params in methods:` trial loop of
`compress_with_best_method`: a configuration whose attempt raises is skipped
(`except Exception: continue`), a ratio below 0.3 is accepted immediately
(`break`), otherwise the best ratio seen so far is kept. -/
def trial_loop (est : String → Nat) (origTokens : Nat)
    (attempt : Bool × Bool × Bool → Except PyErr String) :
    List (String × Bool × Bool × Bool) → Option (String × ℚ × String) →
    Option (String × ℚ × String)
  | [], best => best
  | mth :: rest, best =>
      match attempt mth.2 with
      | .error _ => trial_loop est origTokens attempt rest best
      | .ok encoded =>
          let compressed_tokens := est encoded
          let ratioQ : ℚ :=
            if 0 < origTokens then (compressed_tokens : ℚ) / (origTokens : ℚ)
            else 0
          if ratioQ < 3 / 10 then some (mth.1, ratioQ, encoded)
          else if betterThanBest ratioQ best then
            trial_loop est origTokens attempt rest (some (mth.1, ratioQ, encoded))
          else trial_loop est origTokens attempt rest best

/-- The trial loop followed by the `if best_encoded is None: raise
ValueError("No compression method succeeded")` check. -/
def select_best_method (est : String → Nat) (origTokens : Nat)
    (attempt : Bool × Bool × Bool → Except PyErr String)
    (methods : List (String × Bool × Bool × Bool)) :
    Except PyErr (String × ℚ × String) :=
  match trial_loop est origTokens attempt methods Option.none with
  | some r => .ok r
  | Option.none => .error (.valueError "No compression method succeeded")

/-- `compress_with_best_method` from compressor.py.  `os.makedirs` is a
filesystem effect modelled as succeeding.  After `extract_metadata`, the
statement `metadata_index = MetadataIndex(output_dir)` runs unconditionally;
the name `MetadataIndex` is neither imported (compressor.py lines 1–13) nor
defined in the module, so CPython raises `NameError` there — before the
encoder is constructed, before the large-sheet shortcut and before any
strategy trial.  Every later statement (including the trial loop above) is
unreachable. -/
def compress_with_best_method (_est : String → Nat) (m : SheetMatrix)
    (_output_dir : String) ( _filename_prefix : Option String)
    (_max_tokens : Nat) : Except PyErr (String × ℚ × Metadata) :=
  match extract_metadata m with
  | .error e => .error e
  | .ok _metadata => .error (.nameError "name 'MetadataIndex' is not defined")

/-! ## Round-trip lemmas for decimal digits and column letters -/

theorem natDigitsGo_fuel : ∀ (n f : Nat) (acc : List Char), n ≤ f →
    natDigitsGo f n acc = natDigitsGo n n acc := by
  intro n
  induction n using Nat.strong_induction_on with
  | _ n ih =>
    match n with
    | 0 => intro f acc _; cases f <;> rfl
    | m + 1 =>
      intro f acc hf
      match f, hf with
      | f' + 1, _ =>
        have hq : (m + 1) / 10 < m + 1 := Nat.div_lt_self (Nat.succ_pos m) (by omega)
        show natDigitsGo f' ((m + 1) / 10) _ = natDigitsGo (m + 1) (m + 1) acc
        rw [ih _ hq _ _ (by omega)]
        show _ = natDigitsGo m ((m + 1) / 10) _
        exact (ih _ hq _ _ (by omega)).symm

theorem natDigitsGo_append : ∀ (n : Nat) (acc : List Char),
    natDigitsGo n n acc = natDigits n ++ acc := by
  intro n
  induction n using Nat.strong_induction_on with
  | _ n ih =>
    match n with
    | 0 => intro acc; rfl
    | m + 1 =>
      intro acc
      have hq : (m + 1) / 10 < m + 1 := Nat.div_lt_self (Nat.succ_pos m) (by omega)
      show natDigitsGo m ((m + 1) / 10) _ = natDigits (m + 1) ++ acc
      rw [natDigitsGo_fuel _ _ _ (by omega), ih _ hq]
      show _ = natDigitsGo m ((m + 1) / 10) _ ++ acc
      rw [natDigitsGo_fuel _ _ _ (by omega), ih _ hq, List.append_assoc]
      rfl

theorem natDigits_succ (m : Nat) :
    natDigits (m + 1) =
      natDigits ((m + 1) / 10) ++ [Char.ofNat (48 + (m + 1) % 10)] := by
  show natDigitsGo m ((m + 1) / 10) _ = _
  rw [natDigitsGo_fuel _ _ _ (by
    have := Nat.div_lt_self (Nat.succ_pos m) (show 1 < 10 by omega); omega)]
  rw [natDigitsGo_append]

theorem natDigits_chars : ∀ n : Nat, ∀ c ∈ natDigits n,
    48 ≤ c.toNat ∧ c.toNat ≤ 57 := by
  intro n
  induction n using Nat.strong_induction_on with
  | _ n ih =>
    match n with
    | 0 => intro c hc; cases hc
    | m + 1 =>
      intro c hc
      rw [natDigits_succ] at hc
      rcases List.mem_append.mp hc with h | h
      · exact ih _ (Nat.div_lt_self (Nat.succ_pos m) (by omega)) c h
      · have : c = Char.ofNat (48 + (m + 1) % 10) := by
          cases h with
          | head => rfl
          | tail _ h2 => cases h2
        subst this
        have h10 : (m + 1) % 10 < 10 := Nat.mod_lt _ (by omega)
        rw [char_ofNat_toNat (by omega)]
        omega

theorem foldl10_natDigits : ∀ n : Nat, ∀ a : Nat,
    List.foldl (fun a c => a * 10 + (c.toNat - 48)) a (natDigits n) =
      a * 10 ^ (natDigits n).length + n := by
  intro n
  induction n using Nat.strong_induction_on with
  | _ n ih =>
    match n with
    | 0 => intro a; simp [natDigits, natDigitsGo]
    | m + 1 =>
      intro a
      have hq : (m + 1) / 10 < m + 1 := Nat.div_lt_self (Nat.succ_pos m) (by omega)
      rw [natDigits_succ, List.foldl_append, ih _ hq, List.length_append]
      have h10 : (m + 1) % 10 < 10 := Nat.mod_lt _ (by omega)
      simp only [List.foldl_cons, List.foldl_nil, List.length_cons,
        List.length_nil]
      rw [char_ofNat_toNat (by omega)]
      have hr : 48 + (m + 1) % 10 - 48 = (m + 1) % 10 := by omega
      rw [hr]
      have hdiv := Nat.div_add_mod (m + 1) 10
      generalize (natDigits ((m + 1) / 10)).length = L
      calc (a * 10 ^ L + (m + 1) / 10) * 10 + (m + 1) % 10
          = a * (10 ^ L * 10) + (10 * ((m + 1) / 10) + (m + 1) % 10) := by ring
        _ = a * 10 ^ (L + 1) + (m + 1) := by rw [hdiv, pow_succ]

theorem pyIntOfDigits_natDigits (n : Nat) : pyIntOfDigits (natDigits n) = n := by
  unfold pyIntOfDigits
  rw [foldl10_natDigits]
  simp

theorem natDigits_ne_nil {n : Nat} (h : 0 < n) : natDigits n ≠ [] := by
  match n, h with
  | m + 1, _ =>
    rw [natDigits_succ]
    simp

theorem pyNatRepr_data_digits (n : Nat) : ∀ c ∈ (pyNatRepr n).data,
    48 ≤ c.toNat ∧ c.toNat ≤ 57 := by
  intro c hc
  unfold pyNatRepr at hc
  by_cases h : n = 0
  · simp [h] at hc
    subst hc; exact ⟨by decide, by decide⟩
  · rw [if_neg h] at hc
    exact natDigits_chars n c hc

theorem pyNatRepr_data_ne_nil (n : Nat) : (pyNatRepr n).data ≠ [] := by
  unfold pyNatRepr
  by_cases h : n = 0
  · simp [h]
  · rw [if_neg h]
    exact natDigits_ne_nil (Nat.pos_of_ne_zero h)

theorem pyIntOfDigits_pyNatRepr (n : Nat) :
    pyIntOfDigits (pyNatRepr n).data = n := by
  unfold pyNatRepr
  by_cases h : n = 0
  · subst h; rfl
  · rw [if_neg h]
    exact pyIntOfDigits_natDigits n

theorem pyNatRepr_injective {a b : Nat} (h : pyNatRepr a = pyNatRepr b) :
    a = b := by
  have := congrArg (fun s => pyIntOfDigits s.data) h
  simpa [pyIntOfDigits_pyNatRepr] using this

theorem colLetterGo_fuel : ∀ (n f : Nat) (acc : List Char), n ≤ f →
    colLetterGo f n acc = colLetterGo n n acc := by
  intro n
  induction n using Nat.strong_induction_on with
  | _ n ih =>
    match n with
    | 0 => intro f acc _; cases f <;> rfl
    | m + 1 =>
      intro f acc hf
      match f, hf with
      | f' + 1, _ =>
        have hq : m / 26 < m + 1 := Nat.lt_succ_of_le (Nat.div_le_self m 26)
        show colLetterGo f' (m / 26) _ = colLetterGo (m + 1) (m + 1) acc
        rw [ih _ hq _ _ (by omega)]
        show _ = colLetterGo m (m / 26) _
        exact (ih _ hq _ _ (Nat.div_le_self m 26)).symm

theorem colLetterGo_append : ∀ (n : Nat) (acc : List Char),
    colLetterGo n n acc = colLetterList n ++ acc := by
  intro n
  induction n using Nat.strong_induction_on with
  | _ n ih =>
    match n with
    | 0 => intro acc; rfl
    | m + 1 =>
      intro acc
      have hq : m / 26 < m + 1 := Nat.lt_succ_of_le (Nat.div_le_self m 26)
      show colLetterGo m (m / 26) _ = colLetterList (m + 1) ++ acc
      rw [colLetterGo_fuel _ _ _ (Nat.div_le_self m 26), ih _ hq]
      show _ = colLetterGo m (m / 26) _ ++ acc
      rw [colLetterGo_fuel _ _ _ (Nat.div_le_self m 26), ih _ hq,
        List.append_assoc]
      rfl

theorem colLetterList_succ (m : Nat) :
    colLetterList (m + 1) =
      colLetterList (m / 26) ++ [Char.ofNat (65 + m % 26)] := by
  show colLetterGo m (m / 26) _ = _
  rw [colLetterGo_fuel _ _ _ (Nat.div_le_self m 26), colLetterGo_append]

theorem colLetterList_chars : ∀ n : Nat, ∀ c ∈ colLetterList n,
    65 ≤ c.toNat ∧ c.toNat ≤ 90 := by
  intro n
  induction n using Nat.strong_induction_on with
  | _ n ih =>
    match n with
    | 0 => intro c hc; cases hc
    | m + 1 =>
      intro c hc
      rw [colLetterList_succ] at hc
      rcases List.mem_append.mp hc with h | h
      · exact ih _ (Nat.lt_succ_of_le (Nat.div_le_self m 26)) c h
      · have : c = Char.ofNat (65 + m % 26) := by
          cases h with
          | head => rfl
          | tail _ h2 => cases h2
        subst this
        have h26 : m % 26 < 26 := Nat.mod_lt _ (by omega)
        rw [char_ofNat_toNat (by omega)]
        omega

theorem foldl26_colLetterList : ∀ n : Nat, ∀ a : Nat,
    List.foldl (fun r ch => r * 26 + ((pyToUpper ch).toNat - 64)) a
        (colLetterList n) =
      a * 26 ^ (colLetterList n).length + n := by
  intro n
  induction n using Nat.strong_induction_on with
  | _ n ih =>
    match n with
    | 0 => intro a; simp [colLetterList, colLetterGo]
    | m + 1 =>
      intro a
      have hq : m / 26 < m + 1 := Nat.lt_succ_of_le (Nat.div_le_self m 26)
      rw [colLetterList_succ, List.foldl_append, ih _ hq, List.length_append]
      have h26 : m % 26 < 26 := Nat.mod_lt _ (by omega)
      simp only [List.foldl_cons, List.foldl_nil, List.length_cons,
        List.length_nil]
      rw [pyToUpper_of_upper (by rw [char_ofNat_toNat (by omega)]; omega),
        char_ofNat_toNat (by omega)]
      have hr : 65 + m % 26 - 64 = m % 26 + 1 := by omega
      rw [hr]
      have hdiv := Nat.div_add_mod m 26
      generalize (colLetterList (m / 26)).length = L
      calc (a * 26 ^ L + m / 26) * 26 + (m % 26 + 1)
          = a * (26 ^ L * 26) + (26 * (m / 26) + m % 26 + 1) := by ring
        _ = a * 26 ^ (L + 1) + (m + 1) := by rw [hdiv, pow_succ]

theorem get_column_index_get_column_letter (n : Nat) :
    get_column_index (get_column_letter n) = n := by
  unfold get_column_index get_column_letter
  show List.foldl _ 0 (colLetterList n) = n
  rw [foldl26_colLetterList]
  simp

theorem column_letter_to_number_colLetterList (n : Nat) :
    column_letter_to_number ⟨colLetterList n⟩ = n := by
  show List.foldl _ 0 (colLetterList n) = n
  rw [foldl26_colLetterList]
  simp

theorem colLetterList_ne_nil {n : Nat} (h : 0 < n) : colLetterList n ≠ [] := by
  match n, h with
  | m + 1, _ =>
    rw [colLetterList_succ]
    simp

theorem colLetterList_injective {a b : Nat}
    (h : colLetterList a = colLetterList b) : a = b := by
  have ha := foldl26_colLetterList a 0
  have hb := foldl26_colLetterList b 0
  rw [h] at ha
  simp at ha hb
  omega

/-! ## Address-level lemmas -/

theorem takeWhile_append_all {α : Type} {p : α → Bool} {l₁ l₂ : List α}
    (h : ∀ x ∈ l₁, p x = true) :
    (l₁ ++ l₂).takeWhile p = l₁ ++ l₂.takeWhile p := by
  induction l₁ with
  | nil => rfl
  | cons a l ih =>
      have ha := h a (List.mem_cons_self a l)
      have ih' := ih (fun x hx => h x (List.mem_cons_of_mem a hx))
      simp [List.takeWhile_cons, ha, ih']

theorem dropWhile_append_all {α : Type} {p : α → Bool} {l₁ l₂ : List α}
    (h : ∀ x ∈ l₁, p x = true) :
    (l₁ ++ l₂).dropWhile p = l₂.dropWhile p := by
  induction l₁ with
  | nil => rfl
  | cons a l ih =>
      simp only [List.cons_append, List.dropWhile_cons,
        h a (List.mem_cons_self a l), if_true]
      exact ih (fun x hx => h x (List.mem_cons_of_mem a hx))

theorem takeWhile_all {α : Type} {p : α → Bool} {l : List α}
    (h : ∀ x ∈ l, p x = true) : l.takeWhile p = l := by
  induction l with
  | nil => rfl
  | cons a l ih =>
      have ha := h a (List.mem_cons_self a l)
      have ih' := ih (fun x hx => h x (List.mem_cons_of_mem a hx))
      simp [List.takeWhile_cons, ha, ih']

theorem takeWhile_head_false {α : Type} {p : α → Bool} {l : List α}
    (h : ∀ x ∈ l.take 1, p x = false) : l.takeWhile p = [] := by
  cases l with
  | nil => rfl
  | cons a l =>
      simp [List.takeWhile_cons, h a (by simp)]

theorem filter_all_false {α : Type} {p : α → Bool} {l : List α}
    (h : ∀ x ∈ l, p x = false) : l.filter p = [] := by
  induction l with
  | nil => rfl
  | cons a l ih =>
      simp only [List.filter_cons, h a (List.mem_cons_self a l)]
      exact ih (fun x hx => h x (List.mem_cons_of_mem a hx))

theorem filter_all_true {α : Type} {p : α → Bool} {l : List α}
    (h : ∀ x ∈ l, p x = true) : l.filter p = l := by
  induction l with
  | nil => rfl
  | cons a l ih =>
      simp only [List.filter_cons, h a (List.mem_cons_self a l), if_true]
      simp only [ih (fun x hx => h x (List.mem_cons_of_mem a hx))]

theorem get_cell_address_data (row col : Nat) :
    (get_cell_address row col).data = colLetterList col ++ (pyNatRepr row).data := by
  unfold get_cell_address get_column_letter
  rw [String.data_append]

theorem colLetter_chars_not_digit {c : Nat} : ∀ x ∈ colLetterList c,
    pyIsDigit x = false := by
  intro x hx
  have := colLetterList_chars c x hx
  unfold pyIsDigit
  simp only [Bool.and_eq_false_iff, decide_eq_false_iff_not]
  omega

theorem colLetter_chars_alpha {c : Nat} : ∀ x ∈ colLetterList c,
    pyIsAlpha x = true := by
  intro x hx
  have := colLetterList_chars c x hx
  unfold pyIsAlpha
  simp only [Bool.or_eq_true, Bool.and_eq_true, decide_eq_true_eq]
  omega

theorem colLetter_chars_upperAZ {c : Nat} : ∀ x ∈ colLetterList c,
    pyIsUpperAZ x = true := by
  intro x hx
  have := colLetterList_chars c x hx
  unfold pyIsUpperAZ
  simp only [Bool.and_eq_true, decide_eq_true_eq]
  omega

theorem repr_chars_digit {r : Nat} : ∀ x ∈ (pyNatRepr r).data,
    pyIsDigit x = true := by
  intro x hx
  have := pyNatRepr_data_digits r x hx
  unfold pyIsDigit
  simp only [Bool.and_eq_true, decide_eq_true_eq]
  omega

theorem repr_chars_not_alpha {r : Nat} : ∀ x ∈ (pyNatRepr r).data,
    pyIsAlpha x = false := by
  intro x hx
  have := pyNatRepr_data_digits r x hx
  unfold pyIsAlpha
  simp only [Bool.or_eq_false_iff, Bool.and_eq_false_iff,
    decide_eq_false_iff_not]
  omega

theorem repr_chars_not_upperAZ {r : Nat} : ∀ x ∈ (pyNatRepr r).data,
    pyIsUpperAZ x = false := by
  intro x hx
  have := pyNatRepr_data_digits r x hx
  unfold pyIsUpperAZ
  simp only [Bool.and_eq_false_iff, decide_eq_false_iff_not]
  omega

/-- `digitsOf` recovers the row rendering from a generated address. -/
theorem digitsOf_address (row col : Nat) :
    digitsOf (get_cell_address row col) = pyNatRepr row := by
  unfold digitsOf
  rw [get_cell_address_data, List.filter_append,
    filter_all_false colLetter_chars_not_digit,
    filter_all_true repr_chars_digit, List.nil_append]

/-- `alphasOf` recovers the column letters from a generated address. -/
theorem alphasOf_address (row col : Nat) :
    alphasOf (get_cell_address row col) = ⟨colLetterList col⟩ := by
  unfold alphasOf
  rw [get_cell_address_data, List.filter_append,
    filter_all_true colLetter_chars_alpha,
    filter_all_false repr_chars_not_alpha, List.append_nil]

/-- Column number recovered from a generated address. -/
theorem colnum_address (row col : Nat) :
    column_letter_to_number (alphasOf (get_cell_address row col)) = col := by
  rw [alphasOf_address, column_letter_to_number_colLetterList]

/-- `get_cell_address` is injective in both coordinates. -/
theorem get_cell_address_injective {r c r' c' : Nat}
    (h : get_cell_address r c = get_cell_address r' c') : r = r' ∧ c = c' := by
  have hd := congrArg (fun s => digitsOf s) h
  have ha := congrArg (fun s => column_letter_to_number (alphasOf s)) h
  simp only [digitsOf_address] at hd
  simp only [colnum_address] at ha
  exact ⟨pyNatRepr_injective hd, ha⟩

theorem dropWhile_head_false {α : Type} {p : α → Bool} {l : List α}
    (h : ∀ x ∈ l.take 1, p x = false) : l.dropWhile p = l := by
  cases l with
  | nil => rfl
  | cons a l =>
      simp [List.dropWhile_cons, h a (by simp)]

theorem get_column_index_colLetterList (n : Nat) :
    get_column_index ⟨colLetterList n⟩ = n :=
  get_column_index_get_column_letter n

/-! ## C8 : addressing round-trip -/

/-- C8: for every coordinate with `row ≥ 1` and `col ≥ 1`, parsing the
formatted address round-trips:
`parse_cell_address (get_cell_address row col) = (row, col)`. -/
theorem C8_address_roundtrip (row col : Nat) (hr : 1 ≤ row) (hc : 1 ≤ col) :
    parse_cell_address (get_cell_address row col) = some (row, col) := by
  have _ := hr
  have hletters : ¬ (colLetterList col).isEmpty = true := by
    simp [List.isEmpty_iff]
    exact colLetterList_ne_nil hc
  have hdigits : ¬ ((pyNatRepr row).data).isEmpty = true := by
    simp [List.isEmpty_iff]
    exact pyNatRepr_data_ne_nil row
  unfold parse_cell_address
  simp only [get_cell_address_data,
    takeWhile_append_all colLetter_chars_upperAZ,
    dropWhile_append_all colLetter_chars_upperAZ]
  rw [takeWhile_head_false (fun x hx =>
      repr_chars_not_upperAZ x (List.mem_of_mem_take hx)),
    dropWhile_head_false (fun x hx =>
      repr_chars_not_upperAZ x (List.mem_of_mem_take hx)),
    takeWhile_all repr_chars_digit, List.append_nil]
  rw [if_neg (by simp only [Bool.or_eq_true]; tauto)]
  rw [pyIntOfDigits_pyNatRepr, get_column_index_colLetterList]

/-- Witness for C8 at `(row, col) = (3, 28)` (address `AB3`). -/
theorem C8_address_roundtrip_witness :
    1 ≤ 3 ∧ 1 ≤ 28 ∧ parse_cell_address (get_cell_address 3 28) = some (3, 28) :=
  ⟨by decide, by decide, C8_address_roundtrip 3 28 (by decide) (by decide)⟩

/-! ## C9 : `get_cell` bounds behaviour -/

/-- A 1×1 grid whose only position is absent. -/
def grid1x1Absent : SheetMatrix :=
  { matrix := [[Option.none]], merged_cells := [], sheet_name := "Sheet",
    max_row := 1, max_col := 1 }

/-- C9 counterexample: the claim says an out-of-bounds access "signals an
error rather than returning a value", but `get_cell` returns `None` out of
bounds — the very value that also denotes an absent in-bounds cell, so the
caller receives a normal value and cannot even distinguish the two cases. -/
theorem C9_counterexample :
    grid1x1Absent.get_cell 2 2 = Option.none ∧
    grid1x1Absent.get_cell 2 2 = grid1x1Absent.get_cell 1 1 :=
  ⟨rfl, rfl⟩

/-- C9 (amended): for a well-formed grid, `get_cell` is defined and returns
the stored (possibly absent) cell for every in-bounds coordinate, and for
every out-of-bounds coordinate it returns `None` — indistinguishable from an
absent cell — rather than signalling an error. -/
theorem C9_get_cell_total (m : SheetMatrix) (hwf : m.WF) (row col : Nat) :
    (1 ≤ row ∧ row ≤ m.max_row ∧ 1 ≤ col ∧ col ≤ m.max_col →
      ∃ (h1 : row - 1 < m.matrix.length)
        (h2 : col - 1 < (m.matrix.get ⟨row - 1, h1⟩).length),
        m.get_cell row col = (m.matrix.get ⟨row - 1, h1⟩).get ⟨col - 1, h2⟩) ∧
    (¬ (1 ≤ row ∧ row ≤ m.max_row ∧ 1 ≤ col ∧ col ≤ m.max_col) →
      m.get_cell row col = Option.none) := by
  constructor
  · rintro ⟨hr1, hr2, hc1, hc2⟩
    have h1 : row - 1 < m.matrix.length := by rw [hwf.1]; omega
    have h2 : col - 1 < (m.matrix.get ⟨row - 1, h1⟩).length := by
      rw [hwf.2 _ (m.matrix.get_mem (row - 1) h1)]; omega
    refine ⟨h1, h2, ?_⟩
    unfold SheetMatrix.get_cell
    rw [if_pos ⟨hr1, hr2, hc1, hc2⟩]
    rw [List.getD_eq_getElem _ _ h1]
    have h2' : col - 1 < (m.matrix[row - 1]).length := h2
    rw [List.getD_eq_getElem _ _ h2']
    rfl
  · intro h
    unfold SheetMatrix.get_cell
    rw [if_neg h]

/-- Witness for C9 (amended) on a concrete well-formed grid. -/
theorem C9_get_cell_total_witness :
    (1 ≤ 1 ∧ 1 ≤ grid1x1Absent.max_row ∧ 1 ≤ 1 ∧ 1 ≤ grid1x1Absent.max_col →
      ∃ (h1 : 1 - 1 < grid1x1Absent.matrix.length)
        (h2 : 1 - 1 < (grid1x1Absent.matrix.get ⟨1 - 1, h1⟩).length),
        grid1x1Absent.get_cell 1 1 =
          (grid1x1Absent.matrix.get ⟨1 - 1, h1⟩).get ⟨1 - 1, h2⟩) ∧
    (¬ (1 ≤ 1 ∧ 1 ≤ grid1x1Absent.max_row ∧ 1 ≤ 1 ∧ 1 ≤ grid1x1Absent.max_col) →
      grid1x1Absent.get_cell 1 1 = Option.none) :=
  C9_get_cell_total grid1x1Absent (by constructor <;> decide) 1 1

/-! ## C3 : budget respect on the direct encoding path -/

/-- C3: on the direct (non-chunked) path of `encode_sheet`, an assembled
output whose estimated token count exceeds `max_tokens` makes the path fail
with the budget-exceeded `ValueError` (it is never returned); an `ok` result
is exactly the assembled output and only arises when its estimate is within
budget. -/
theorem C3_direct_budget_respect (est : String → Nat) (cfg : EncoderCfg)
    (m : SheetMatrix) :
    (cfg.max_tokens < est (direct_encoding cfg m) →
      encode_direct est cfg m = .error (.valueError
        (budget_exceeded_message (est (direct_encoding cfg m))
          cfg.max_tokens))) ∧
    (est (direct_encoding cfg m) ≤ cfg.max_tokens →
      encode_direct est cfg m = .ok (direct_encoding cfg m)) ∧
    (∀ out, encode_direct est cfg m = .ok out →
      est out ≤ cfg.max_tokens ∧ out = direct_encoding cfg m) := by
  refine ⟨?_, ?_, ?_⟩
  · intro h
    unfold encode_direct
    rw [if_neg (by omega)]
  · intro h
    unfold encode_direct
    rw [if_pos h]
  · intro out hout
    unfold encode_direct at hout
    by_cases h : est (direct_encoding cfg m) ≤ cfg.max_tokens
    · rw [if_pos h] at hout
      cases hout
      exact ⟨h, rfl⟩
    · rw [if_neg h] at hout
      cases hout

/-- Witness for C3: with the `len // 4` fallback estimator and a zero budget,
the direct path on a concrete grid fails with the budget-exceeded error. -/
theorem C3_direct_budget_respect_witness :
    (({ max_tokens := 0 } : EncoderCfg).max_tokens <
      fallback_token_estimate
        (direct_encoding { max_tokens := 0 } grid1x1Absent)) ∧
    encode_direct fallback_token_estimate { max_tokens := 0 } grid1x1Absent =
      .error (.valueError (budget_exceeded_message
        (fallback_token_estimate
          (direct_encoding { max_tokens := 0 } grid1x1Absent)) 0)) :=
  ⟨by decide,
   (C3_direct_budget_respect fallback_token_estimate { max_tokens := 0 }
      grid1x1Absent).1 (by decide)⟩

/-! ## C6 : per-configuration isolation in the trial loop -/

theorem trial_loop_cons_error {est : String → Nat} {origTokens : Nat}
    {attempt : Bool × Bool × Bool → Except PyErr String}
    {mth : String × Bool × Bool × Bool}
    {rest : List (String × Bool × Bool × Bool)}
    {best : Option (String × ℚ × String)} {e : PyErr}
    (hat : attempt mth.2 = .error e) :
    trial_loop est origTokens attempt (mth :: rest) best =
      trial_loop est origTokens attempt rest best := by
  show (match attempt mth.2 with
      | .error _ => trial_loop est origTokens attempt rest best
      | .ok encoded =>
          let compressed_tokens := est encoded
          let ratioQ : ℚ :=
            if 0 < origTokens then (compressed_tokens : ℚ) / (origTokens : ℚ)
            else 0
          if ratioQ < 3 / 10 then some (mth.1, ratioQ, encoded)
          else if betterThanBest ratioQ best then
            trial_loop est origTokens attempt rest (some (mth.1, ratioQ, encoded))
          else trial_loop est origTokens attempt rest best) = _
  rw [hat]

theorem trial_loop_cons_ok {est : String → Nat} {origTokens : Nat}
    {attempt : Bool × Bool × Bool → Except PyErr String}
    {mth : String × Bool × Bool × Bool}
    {rest : List (String × Bool × Bool × Bool)}
    {best : Option (String × ℚ × String)} {encoded : String}
    (hat : attempt mth.2 = .ok encoded) :
    trial_loop est origTokens attempt (mth :: rest) best =
      (let ratioQ : ℚ :=
        if 0 < origTokens then (est encoded : ℚ) / (origTokens : ℚ) else 0
      if ratioQ < 3 / 10 then some (mth.1, ratioQ, encoded)
      else if betterThanBest ratioQ best then
        trial_loop est origTokens attempt rest (some (mth.1, ratioQ, encoded))
      else trial_loop est origTokens attempt rest best) := by
  show (match attempt mth.2 with
      | .error _ => trial_loop est origTokens attempt rest best
      | .ok encoded =>
          let compressed_tokens := est encoded
          let ratioQ : ℚ :=
            if 0 < origTokens then (compressed_tokens : ℚ) / (origTokens : ℚ)
            else 0
          if ratioQ < 3 / 10 then some (mth.1, ratioQ, encoded)
          else if betterThanBest ratioQ best then
            trial_loop est origTokens attempt rest (some (mth.1, ratioQ, encoded))
          else trial_loop est origTokens attempt rest best) = _
  rw [hat]

theorem trial_loop_filter_ok (est : String → Nat) (origTokens : Nat)
    (attempt : Bool × Bool × Bool → Except PyErr String) :
    ∀ (methods : List (String × Bool × Bool × Bool))
      (best : Option (String × ℚ × String)),
      trial_loop est origTokens attempt methods best =
        trial_loop est origTokens attempt
          (methods.filter (fun mth => (attempt mth.2).isOk)) best := by
  intro methods
  induction methods with
  | nil => intro best; rfl
  | cons mth rest ih =>
      intro best
      cases hat : attempt mth.2 with
      | error e =>
          have hok : (attempt mth.2).isOk = false := by rw [hat]; rfl
          simp only [List.filter_cons, hok, Bool.false_eq_true, if_false]
          rw [trial_loop_cons_error hat]
          exact ih best
      | ok encoded =>
          have hok : (attempt mth.2).isOk = true := by rw [hat]; rfl
          simp only [List.filter_cons, hok, if_true]
          rw [trial_loop_cons_ok hat, trial_loop_cons_ok hat]
          simp only []
          split <;> split <;>
            first
              | rfl
              | (split <;> exact ih _)

/-- C6: in the trial loop of `compress_with_best_method` (§4.5), a
configuration whose attempt raises is simply skipped — the loop over any
method list equals the loop over the successful configurations only, so one
configuration's exception never aborts evaluation of the rest — and when no
configuration succeeds the call fails with
`ValueError("No compression method succeeded")` instead of returning a
result. -/
theorem C6_trial_isolation_and_failure (est : String → Nat) (origTokens : Nat)
    (attempt : Bool × Bool × Bool → Except PyErr String) :
    (∀ (methods : List (String × Bool × Bool × Bool))
       (best : Option (String × ℚ × String)),
        trial_loop est origTokens attempt methods best =
          trial_loop est origTokens attempt
            (methods.filter (fun mth => (attempt mth.2).isOk)) best) ∧
    (∀ methods : List (String × Bool × Bool × Bool),
        (∀ mth ∈ methods, (attempt mth.2).isOk = false) →
        select_best_method est origTokens attempt methods =
          .error (.valueError "No compression method succeeded")) := by
  refine ⟨trial_loop_filter_ok est origTokens attempt, ?_⟩
  intro methods hfail
  unfold select_best_method
  rw [trial_loop_filter_ok]
  have : methods.filter (fun mth => (attempt mth.2).isOk) = [] :=
    filter_all_false hfail
  rw [this]
  rfl

/-- Witness for C6: with every attempt failing, all four source
configurations are still visited and the orchestration step fails with the
documented error. -/
theorem C6_trial_isolation_and_failure_witness :
    (∀ mth ∈ methodConfigs,
      ((fun (_ : Bool × Bool × Bool) =>
        (Except.error (PyErr.valueError "boom") : Except PyErr String))
          mth.2).isOk = false) ∧
    select_best_method fallback_token_estimate 100
        (fun _ => .error (.valueError "boom")) methodConfigs =
      .error (.valueError "No compression method succeeded") :=
  ⟨by decide,
   (C6_trial_isolation_and_failure fallback_token_estimate 100
      (fun _ => .error (.valueError "boom"))).2 methodConfigs (by decide)⟩

/-! ## C10 : `compress_with_best_method` never returns -/

/-- Cell construction as `SpreadsheetParser.parse_sheet` performs it: the
stored `data_type` is always `infer_data_type(value)`. -/
def mkCell (v : Value) (fmt : CellFormat) (addr : String) : Cell :=
  { value := v, data_type := infer_data_type v, format := fmt, address := addr }

def emptyFormat : CellFormat :=
  { formats := [], bg_color := Option.none, font_color := Option.none,
    borders := [] }

/-- A 1×1 grid holding the DATE-typed string `2024-01-01`. -/
def gridDate : SheetMatrix :=
  { matrix := [[some (mkCell (.str "2024-01-01") emptyFormat "A1")]],
    merged_cells := [], sheet_name := "Sheet", max_row := 1, max_col := 1 }

/-- C10 counterexample: on a grid containing a DATE cell,
`compress_with_best_method` raises `KeyError: 'min'` inside
`extract_metadata` (its `date_ranges` dict is initialised empty and never
re-initialised), not the claimed `NameError` — so the claim's "for every
grid" is false, although the call still never returns a result. -/
theorem C10_counterexample :
    compress_with_best_method fallback_token_estimate gridDate "out"
        Option.none 4000 = .error (.keyError "min") ∧
    (Except.error (PyErr.keyError "min") :
        Except PyErr (String × ℚ × Metadata)) ≠
      .error (.nameError "name 'MetadataIndex' is not defined") :=
  ⟨rfl, fun h => PyErr.noConfusion (Except.error.inj h)⟩

theorem foldl_preserves {α β : Type} {P : α → Prop} {f : α → β → α}
    (hstep : ∀ a b, P a → P (f a b)) :
    ∀ (l : List β) (a : α), P a → P (l.foldl f a) := by
  intro l
  induction l with
  | nil => intro a ha; exact ha
  | cons b bs ih => intro a ha; exact ih _ (hstep a b ha)

theorem foldCells_except {E S : Type} (m : SheetMatrix)
    (f : Except E S → Nat → Nat → Option Cell → Except E S) (init : S)
    (hstep : ∀ s r c, ∃ s', f (.ok s) r c (m.get_cell r c) = .ok s') :
    ∃ s', foldCells m f (.ok init) = .ok s' := by
  unfold foldCells
  have inner : ∀ (r : Nat) (st : Except E S), (∃ s0, st = .ok s0) →
      ∃ s1, (List.range m.max_col).foldl
        (fun st' c => f st' (r + 1) (c + 1) (m.get_cell (r + 1) (c + 1))) st =
          .ok s1 := by
    intro r st hst
    refine @foldl_preserves _ _ (fun st => ∃ s1, st = Except.ok s1) _ ?_ _ st hst
    rintro a c ⟨s1, rfl⟩
    exact hstep s1 (r + 1) (c + 1)
  refine @foldl_preserves _ _ (fun st => ∃ s1, st = Except.ok s1) _ ?_ _ _
    ⟨init, rfl⟩
  intro a r ha
  exact inner r a ha

/-- `extract_metadata` succeeds whenever no populated (truthy) cell carries a
DATE/DATETIME data type. -/
theorem extract_metadata_ok (m : SheetMatrix)
    (hnd : ∀ r c cell, m.get_cell r c = some cell →
      ¬(pyTruthy cell.value = true ∧
        (cell.data_type = .DATE ∨ cell.data_type = .DATETIME))) :
    ∃ md, extract_metadata m = .ok md := by
  have hstep : ∀ s r c, ∃ s',
      extract_metadata_step (.ok s) r c (m.get_cell r c) = .ok s' := by
    intro s r c
    cases hoc : m.get_cell r c with
    | none => exact ⟨s, rfl⟩
    | some cell =>
        show ∃ s',
          (if pyTruthy cell.value = true then
            let dts := pyStrSetAdd s.1 cell.data_type.enumName
            if cell.data_type = DataType.DATE ∨ cell.data_type = DataType.DATETIME then
              Except.error (PyErr.keyError "min")
            else
              let v := pyStr cell.value
              let metrics :=
                if ["revenue", "income", "expense", "profit", "loss"].any
                    (fun kw => subStrIn kw.data (strToLower v).data) then
                  s.2 ++ [v]
                else s.2
              Except.ok (dts, metrics)
          else Except.ok s) = Except.ok s'
        by_cases htr : pyTruthy cell.value = true
        · have hdt := hnd _ _ _ hoc
          rw [if_pos htr, if_neg (fun hd => hdt ⟨htr, hd⟩)]
          exact ⟨_, rfl⟩
        · rw [if_neg htr]
          exact ⟨s, rfl⟩
  obtain ⟨s', hs⟩ := foldCells_except m extract_metadata_step ([], []) hstep
  unfold extract_metadata
  rw [hs]
  exact ⟨_, rfl⟩

/-- C10 (amended): for every grid with no DATE/DATETIME-typed populated cell
(and every argument combination), `compress_with_best_method` raises
`NameError` at its metadata-index step — `MetadataIndex` is never imported
into or defined in the compressor module — before any encoding or strategy
trial, and therefore never returns a result.  (For grids with a DATE cell it
raises `KeyError: 'min'` even earlier; in no case does it return.) -/
theorem C10_nameError (est : String → Nat) (m : SheetMatrix)
    (output_dir : String) ( filename_prefix : Option String) (max_tokens : Nat)
    (hnd : ∀ r c cell, m.get_cell r c = some cell →
      ¬(pyTruthy cell.value = true ∧
        (cell.data_type = .DATE ∨ cell.data_type = .DATETIME))) :
    compress_with_best_method est m output_dir filename_prefix max_tokens =
      .error (.nameError "name 'MetadataIndex' is not defined") := by
  obtain ⟨md, hmd⟩ := extract_metadata_ok m hnd
  unfold compress_with_best_method
  rw [hmd]

theorem grid1x1Absent_get_cell (r c : Nat) :
    grid1x1Absent.get_cell r c = Option.none := by
  unfold SheetMatrix.get_cell
  split
  · next h =>
      obtain ⟨h1, h2, h3, h4⟩ := h
      have hr : r = 1 := by
        have : grid1x1Absent.max_row = 1 := rfl
        omega
      have hc : c = 1 := by
        have : grid1x1Absent.max_col = 1 := rfl
        omega
      subst hr; subst hc
      rfl
  · rfl

/-- Witness for C10 (amended) on a concrete date-free grid. -/
theorem C10_nameError_witness :
    compress_with_best_method fallback_token_estimate grid1x1Absent "out"
        Option.none 4000 =
      .error (.nameError "name 'MetadataIndex' is not defined") :=
  C10_nameError fallback_token_estimate grid1x1Absent "out" Option.none 4000
    (fun r c cell hcell => by
      rw [grid1x1Absent_get_cell] at hcell
      cases hcell)

/-! ## C4 : anchor inclusion invariant -/

theorem pySetAdd_mem_self (s : List Nat) (x : Nat) : x ∈ pySetAdd s x := by
  unfold pySetAdd
  split
  · assumption
  · simp

theorem pySetAdd_mem_mono {a : Nat} {s : List Nat} (x : Nat) (h : a ∈ s) :
    a ∈ pySetAdd s x := by
  unfold pySetAdd
  split
  · exact h
  · simp [h]

theorem mem_find_anchor_rows_endpoints (m : SheetMatrix) (h : 0 < m.max_row) :
    1 ∈ find_anchor_rows m ∧ m.max_row ∈ find_anchor_rows m := by
  unfold find_anchor_rows
  dsimp only
  rw [if_pos h]
  have hbase : 1 ∈ pySetAdd (pySetAdd
      ((List.range m.max_row).foldl (fun acc r =>
        if (3 : ℚ) ≤ rowScoreQ m (r + 1) then pySetAdd acc (r + 1) else acc) [])
      1) m.max_row ∧
      m.max_row ∈ pySetAdd (pySetAdd
      ((List.range m.max_row).foldl (fun acc r =>
        if (3 : ℚ) ≤ rowScoreQ m (r + 1) then pySetAdd acc (r + 1) else acc) [])
      1) m.max_row :=
    ⟨pySetAdd_mem_mono _ (pySetAdd_mem_self _ 1), pySetAdd_mem_self _ _⟩
  split
  · refine @foldl_preserves _ _
      (fun l => 1 ∈ l ∧ m.max_row ∈ l) _ ?_ (List.range m.max_row) _ hbase
    intro a b ⟨h1, h2⟩
    constructor
    · split
      · exact pySetAdd_mem_mono _ h1
      · exact h1
    · split
      · exact pySetAdd_mem_mono _ h2
      · exact h2
  · exact hbase

theorem mem_find_anchor_cols_endpoints (m : SheetMatrix) (h : 0 < m.max_col) :
    1 ∈ find_anchor_cols m ∧ m.max_col ∈ find_anchor_cols m := by
  unfold find_anchor_cols
  dsimp only
  rw [if_pos h]
  have hbase : 1 ∈ pySetAdd (pySetAdd
      ((List.range m.max_col).foldl (fun acc c =>
        if (3 : ℚ) ≤ colScoreQ m (c + 1) then pySetAdd acc (c + 1) else acc) [])
      1) m.max_col ∧
      m.max_col ∈ pySetAdd (pySetAdd
      ((List.range m.max_col).foldl (fun acc c =>
        if (3 : ℚ) ≤ colScoreQ m (c + 1) then pySetAdd acc (c + 1) else acc) [])
      1) m.max_col :=
    ⟨pySetAdd_mem_mono _ (pySetAdd_mem_self _ 1), pySetAdd_mem_self _ _⟩
  split
  · refine @foldl_preserves _ _
      (fun l => 1 ∈ l ∧ m.max_col ∈ l) _ ?_ (List.range m.max_col) _ hbase
    intro a b ⟨h1, h2⟩
    constructor
    · split
      · exact pySetAdd_mem_mono _ h1
      · exact h1
    · split
      · exact pySetAdd_mem_mono _ h2
      · exact h2
  · exact hbase

theorem mem_expand_anchors {a : Nat} (k : Nat) {anchors : List Nat}
    (max_index : Nat) (h : a ∈ anchors) :
    a ∈ expand_anchors k anchors max_index := by
  unfold expand_anchors
  refine @foldl_preserves _ _ (fun l => a ∈ l) _ ?_ anchors anchors h
  intro acc anchor ha
  refine @foldl_preserves _ _ (fun l => a ∈ l) _ ?_ (List.range k) acc ha
  intro acc2 i0 ha2
  dsimp only
  have step1 : a ∈ (if i0 + 1 + 1 ≤ anchor then pySetAdd acc2 (anchor - (i0 + 1))
      else acc2) := by
    split
    · exact pySetAdd_mem_mono _ ha2
    · exact ha2
  split
  · exact pySetAdd_mem_mono _ step1
  · exact step1

theorem getD_map_range {α : Type} (n i : Nat) (f : Nat → α) (d : α)
    (h : i < n) : ((List.range n).map f).getD i d = f i := by
  have h1 : i < ((List.range n).map f).length := by simpa using h
  rw [List.getD_eq_getElem _ _ h1, List.getElem_map, List.getElem_range]

theorem apply_get_cell_kept (k : Nat) (m : SheetMatrix) (r c : Nat)
    (hr : r ∈ anchor_rows_to_keep k m) (hc : c ∈ anchor_cols_to_keep k m)
    (hr1 : 1 ≤ r) (hr2 : r ≤ m.max_row) (hc1 : 1 ≤ c) (hc2 : c ≤ m.max_col) :
    (structural_anchor_apply k m).get_cell r c = m.get_cell r c := by
  unfold structural_anchor_apply SheetMatrix.get_cell
  simp only []
  rw [if_pos ⟨hr1, hr2, hc1, hc2⟩]
  rw [getD_map_range _ _ _ _ (by omega)]
  have hrr : r - 1 + 1 = r := by omega
  rw [hrr, if_pos hr]
  rw [getD_map_range _ _ _ _ (by omega)]
  have hcc : c - 1 + 1 = c := by omega
  rw [hcc, if_pos hc]

/-- C4: for every non-empty grid and every proximity, row 1, the last row,
column 1 and the last column are members of the retained row/column sets of
the structural anchor strategy, and the cells at those retained
intersections are preserved by `apply`. -/
theorem C4_anchor_inclusion (m : SheetMatrix) (k : Nat)
    (hrow : 1 ≤ m.max_row) (hcol : 1 ≤ m.max_col) :
    1 ∈ anchor_rows_to_keep k m ∧ m.max_row ∈ anchor_rows_to_keep k m ∧
    1 ∈ anchor_cols_to_keep k m ∧ m.max_col ∈ anchor_cols_to_keep k m ∧
    (∀ r c, (r = 1 ∨ r = m.max_row) → (c = 1 ∨ c = m.max_col) →
      (structural_anchor_apply k m).get_cell r c = m.get_cell r c) := by
  obtain ⟨hr1, hr2⟩ := mem_find_anchor_rows_endpoints m hrow
  obtain ⟨hc1, hc2⟩ := mem_find_anchor_cols_endpoints m hcol
  have kr1 : 1 ∈ anchor_rows_to_keep k m := mem_expand_anchors k _ hr1
  have kr2 : m.max_row ∈ anchor_rows_to_keep k m := mem_expand_anchors k _ hr2
  have kc1 : 1 ∈ anchor_cols_to_keep k m := mem_expand_anchors k _ hc1
  have kc2 : m.max_col ∈ anchor_cols_to_keep k m := mem_expand_anchors k _ hc2
  refine ⟨kr1, kr2, kc1, kc2, ?_⟩
  intro r c hr hc
  have hrk : r ∈ anchor_rows_to_keep k m := by
    cases hr with
    | inl h => exact h ▸ kr1
    | inr h => exact h ▸ kr2
  have hck : c ∈ anchor_cols_to_keep k m := by
    cases hc with
    | inl h => exact h ▸ kc1
    | inr h => exact h ▸ kc2
  apply apply_get_cell_kept k m r c hrk hck
  · cases hr with
    | inl h => omega
    | inr h => omega
  · cases hr with
    | inl h => omega
    | inr h => omega
  · cases hc with
    | inl h => omega
    | inr h => omega
  · cases hc with
    | inl h => omega
    | inr h => omega

/-- Witness for C4 on a concrete non-empty grid with proximity 0. -/
theorem C4_anchor_inclusion_witness :
    1 ∈ anchor_rows_to_keep 0 grid1x1Absent ∧
    grid1x1Absent.max_row ∈ anchor_rows_to_keep 0 grid1x1Absent ∧
    1 ∈ anchor_cols_to_keep 0 grid1x1Absent ∧
    grid1x1Absent.max_col ∈ anchor_cols_to_keep 0 grid1x1Absent ∧
    (∀ r c, (r = 1 ∨ r = grid1x1Absent.max_row) →
      (c = 1 ∨ c = grid1x1Absent.max_col) →
      (structural_anchor_apply 0 grid1x1Absent).get_cell r c =
        grid1x1Absent.get_cell r c) :=
  C4_anchor_inclusion grid1x1Absent 0 (by decide) (by decide)

/-! ## C5 : inverted-index key collision -/

/-- A 1×2 grid whose cells stringify identically but carry distinct data
types: `A1 = True` (Python bool) and `B1 = "True"` (text). -/
def gridBoolText : SheetMatrix :=
  { matrix := [[some (mkCell (.bool true) emptyFormat "A1"),
                some (mkCell (.str "True") emptyFormat "B1")]],
    merged_cells := [], sheet_name := "Sheet", max_row := 1, max_col := 2 }

/-- C5: evaluating `_generate_inverted_index_text` at the failing input.
The two cells build the internal keys `B:True` and `T:True`; stripping the
type prefix for output collides both on `"True"`, and the second dict
assignment overwrites the first, so `A1` vanishes from the output — the
emitted JSON is exactly `{"True":["B1"]}` and the substring `A1` occurs
nowhere in it, contradicting both "every populated cell's address is
represented" and "distinct data types that stringify identically are not
merged into one entry losing addresses".  (`__empty_cells` is correctly
absent: the absent-cell count is zero.) -/
theorem C5_inverted_index_overwrite :
    generate_inverted_index_text gridBoolText =
      "\x7b\"True\":[\"B1\"]\x7d" ∧
    subStrIn "A1".data (generate_inverted_index_text gridBoolText).data =
      false :=
  ⟨by rfl, by rfl⟩

/-! ## C7 : number-format signature detection -/

/-- The number-format signature exactly as claim C7 words it ("…`'0.'`
followed by as many zeros as the value's observed decimal places for a
float…"): spec-side definition used to compare against the code.
"Percentage-looking", "currency-looking" and "plain comma-grouped numeric"
are the shapes named by the specification (trailing `%`/leading currency
symbol/embedded comma, with the remainder numeric). -/
def claimedNumberFormat_asWritten : Value → Option String
  | .int _ => some "0"
  | .float f => some ("0." ++ zeroRun (decimalPlacesOf f.reprStr))
  | .str v =>
      let value_str := pyStrip v
      if value_str.data.getLast? = some '%' &&
          pyIsNumericStr ⟨value_str.data.dropLast⟩ then some "0%"
      else if (value_str.data.head? = some '$' || value_str.data.head? = some '€' ||
          value_str.data.head? = some '£') &&
          pyIsNumericStr ⟨value_str.data.drop 1⟩ then
        if value_str.data.contains ',' then
          if value_str.data.contains '.' then some "$#,##0.00" else some "$#,##0"
        else
          if value_str.data.contains '.' then some "$0.00" else some "$0"
      else if value_str.data.contains ',' && pyIsNumericStr value_str then
        if value_str.data.contains '.' then
          some ("#,##0." ++ zeroRun (decimalPlacesOf value_str))
        else some "#,##0"
      else Option.none
  | _ => Option.none

/-- The amended float clause: `"0"` for an integral float; `"0."` plus the
observed decimal places when the rendering contains a `'.'`; no signature
otherwise (exponent-form renderings). -/
def claimedNumberFormat_amended : Value → Option String
  | .int _ => some "0"
  | .float f =>
      if f.isIntegral then some "0"
      else if f.reprStr.data.contains '.' then
        some ("0." ++ zeroRun (decimalPlacesOf f.reprStr))
      else Option.none
  | .str v =>
      let value_str := pyStrip v
      if value_str.data.getLast? = some '%' &&
          pyIsNumericStr ⟨value_str.data.dropLast⟩ then some "0%"
      else if (value_str.data.head? = some '$' || value_str.data.head? = some '€' ||
          value_str.data.head? = some '£') &&
          pyIsNumericStr ⟨value_str.data.drop 1⟩ then
        if value_str.data.contains ',' then
          if value_str.data.contains '.' then some "$#,##0.00" else some "$#,##0"
        else
          if value_str.data.contains '.' then some "$0.00" else some "$0"
      else if value_str.data.contains ',' && pyIsNumericStr value_str then
        if value_str.data.contains '.' then
          some ("#,##0." ++ zeroRun (decimalPlacesOf value_str))
        else some "#,##0"
      else Option.none
  | _ => Option.none

/-- C7 counterexample: the float `2.0` (rendering `"2.0"`, `is_integer()`
true — an exact floating-point fact) gets signature `"0"` from the code via
the `value.is_integer()` short-circuit, while the claim as written demands
`"0.0"` (one observed decimal place). -/
theorem C7_counterexample :
    detect_number_format_string (.float ⟨"2.0", true⟩) = some "0" ∧
    claimedNumberFormat_asWritten (.float ⟨"2.0", true⟩) = some "0.0" ∧
    detect_number_format_string (.float ⟨"2.0", true⟩) ≠
      claimedNumberFormat_asWritten (.float ⟨"2.0", true⟩) :=
  ⟨rfl, rfl, by decide⟩

/-- C7 (amended): for every cell value the detected signature is exactly the
claimed shape table, with the float clause amended to `"0"` for integral
floats, `"0." + zeros` for fractional renderings containing `'.'`, and no
signature for exponent-form renderings; all other clauses are as the claim
states them (integer `"0"`, percentage `"0%"`, the four currency forms chosen
by thousands separator and decimal point, comma-grouped `#,##0[.zeros]`, and
no signature for every other value). -/
theorem C7_number_format_signature (v : Value) :
    detect_number_format_string v = claimedNumberFormat_amended v := by
  cases v <;> rfl

/-! ## C1 : order theory of the Python string comparison -/

theorem pyListLtB_asymm : ∀ a b : List Char,
    pyListLtB a b = true → pyListLtB b a = false := by
  intro a
  induction a with
  | nil =>
      intro b hb
      cases b with
      | nil => simp [pyListLtB] at hb
      | cons y ys => simp [pyListLtB]
  | cons x xs ih =>
      intro b hb
      cases b with
      | nil => simp [pyListLtB] at hb
      | cons y ys =>
          by_cases h1 : x.toNat < y.toNat
          · have h2 : ¬ y.toNat < x.toNat := by omega
            simp [pyListLtB, h1, h2]
          · by_cases h2 : y.toNat < x.toNat
            · simp [pyListLtB, h1, h2] at hb
            · have hxs : pyListLtB xs ys = true := by
                simpa [pyListLtB, h1, h2] using hb
              simp [pyListLtB, h1, h2, ih ys hxs]

theorem pyListLtB_eq_of_not : ∀ a b : List Char,
    pyListLtB a b = false → pyListLtB b a = false → a = b := by
  intro a
  induction a with
  | nil =>
      intro b h1 _
      cases b with
      | nil => rfl
      | cons y ys => simp [pyListLtB] at h1
  | cons x xs ih =>
      intro b h1 h2
      cases b with
      | nil => simp [pyListLtB] at h2
      | cons y ys =>
          by_cases hxy : x.toNat < y.toNat
          · simp [pyListLtB, hxy] at h1
          · by_cases hyx : y.toNat < x.toNat
            · simp [pyListLtB, hyx] at h2
            · have heq : x = y := char_eq_of_toNat_eq (by omega)
              have t1 : pyListLtB xs ys = false := by
                simpa [pyListLtB, hxy, hyx] using h1
              have t2 : pyListLtB ys xs = false := by
                simpa [pyListLtB, hxy, hyx] using h2
              rw [heq, ih ys t1 t2]

theorem pyListLtB_trans : ∀ a b c : List Char,
    pyListLtB a b = true → pyListLtB b c = true → pyListLtB a c = true := by
  intro a
  induction a with
  | nil =>
      intro b c h1 h2
      cases c with
      | nil =>
          cases b with
          | nil => simpa using h1
          | cons y ys => simp [pyListLtB] at h2
      | cons z zs => simp [pyListLtB]
  | cons x xs ih =>
      intro b c h1 h2
      cases b with
      | nil => simp [pyListLtB] at h1
      | cons y ys =>
          cases c with
          | nil => simp [pyListLtB] at h2
          | cons z zs =>
              by_cases hxy : x.toNat < y.toNat
              · by_cases hyz : y.toNat < z.toNat
                · have hxz : x.toNat < z.toNat := by omega
                  simp [pyListLtB, hxz, show ¬ z.toNat < x.toNat by omega]
                · by_cases hzy : z.toNat < y.toNat
                  · simp [pyListLtB, hyz, hzy] at h2
                  · have hxz : x.toNat < z.toNat := by omega
                    simp [pyListLtB, hxz, show ¬ z.toNat < x.toNat by omega]
              · by_cases hyx : y.toNat < x.toNat
                · simp [pyListLtB, hxy, hyx] at h1
                · have hxsys : pyListLtB xs ys = true := by
                    simpa [pyListLtB, hxy, hyx] using h1
                  by_cases hyz : y.toNat < z.toNat
                  · have hxz : x.toNat < z.toNat := by omega
                    simp [pyListLtB, hxz, show ¬ z.toNat < x.toNat by omega]
                  · by_cases hzy : z.toNat < y.toNat
                    · simp [pyListLtB, hyz, hzy] at h2
                    · have hyszs : pyListLtB ys zs = true := by
                        simpa [pyListLtB, hyz, hzy] using h2
                      have hxz : ¬ x.toNat < z.toNat := by omega
                      have hzx : ¬ z.toNat < x.toNat := by omega
                      simp [pyListLtB, hxz, hzx, ih ys zs hxsys hyszs]

theorem pyStrLe_iff (a b : String) :
    pyStrLe a b ↔ pyListLtB b.data a.data = false := by
  unfold pyStrLe pyStrLeB
  cases h : pyListLtB b.data a.data <;> simp [h]

instance : IsTotal String pyStrLe := by
  constructor
  intro a b
  by_cases h : pyListLtB b.data a.data = true
  · right
    rw [pyStrLe_iff]
    exact pyListLtB_asymm _ _ h
  · left
    rw [pyStrLe_iff]
    exact Bool.eq_false_iff.mpr h

instance : IsTrans String pyStrLe := by
  constructor
  intro a b c hab hbc
  rw [pyStrLe_iff] at hab hbc ⊢
  by_cases hca : pyListLtB c.data a.data = true
  · by_cases hbc2 : pyListLtB b.data c.data = true
    · have := pyListLtB_trans _ _ _ hbc2 hca
      rw [this] at hab
      cases hab
    · have hbceq : b.data = c.data :=
        pyListLtB_eq_of_not _ _ (Bool.eq_false_iff.mpr hbc2) hbc
      rw [← hbceq] at hca
      rw [hca] at hab
      cases hab
  · exact Bool.eq_false_iff.mpr hca

instance : IsAntisymm String pyStrLe := by
  constructor
  intro a b hab hba
  rw [pyStrLe_iff] at hab hba
  exact String.ext (pyListLtB_eq_of_not _ _ hba hab)

/-! ## C1 : column letters of equal length sort by column number -/

/-- Top-down value of a letter list in bijective base 26 (digit `A` = 1). -/
def letterVal : List Char → Nat
  | [] => 0
  | ch :: l => (ch.toNat - 64) * 26 ^ l.length + letterVal l

/-- `Σ_{k<L} 26^k`, the minimum `letterVal` of a length-`L` letter list. -/
def geom26 : Nat → Nat
  | 0 => 0
  | L + 1 => 26 * geom26 L + 1

theorem geom26_pow (L : Nat) : 25 * geom26 L + 1 = 26 ^ L := by
  induction L with
  | zero => rfl
  | succ L ih =>
      show 25 * (26 * geom26 L + 1) + 1 = 26 ^ (L + 1)
      rw [pow_succ, ← ih]
      ring

theorem letterVal_append_singleton : ∀ (l : List Char) (ch : Char),
    letterVal (l ++ [ch]) = 26 * letterVal l + (ch.toNat - 64) := by
  intro l
  induction l with
  | nil => intro ch; simp [letterVal]
  | cons x xs ih =>
      intro ch
      show (x.toNat - 64) * 26 ^ (xs ++ [ch]).length + letterVal (xs ++ [ch]) =
        26 * ((x.toNat - 64) * 26 ^ xs.length + letterVal xs) + (ch.toNat - 64)
      rw [ih, List.length_append]
      simp only [List.length_singleton, pow_one]
      ring

theorem letterVal_colLetterList : ∀ n : Nat, letterVal (colLetterList n) = n := by
  intro n
  induction n using Nat.strong_induction_on with
  | _ n ih =>
    match n with
    | 0 => rfl
    | m + 1 =>
        rw [colLetterList_succ, letterVal_append_singleton,
          ih _ (Nat.lt_succ_of_le (Nat.div_le_self m 26))]
        have h26 : m % 26 < 26 := Nat.mod_lt _ (by omega)
        rw [char_ofNat_toNat (by omega)]
        have := Nat.div_add_mod m 26
        omega

theorem letterVal_lower_bound : ∀ l : List Char,
    (∀ ch ∈ l, 65 ≤ ch.toNat) → geom26 l.length ≤ letterVal l := by
  intro l
  induction l with
  | nil => intro _; exact Nat.le_refl 0
  | cons x xs ih =>
      intro h
      have hx := h x (List.mem_cons_self x xs)
      have hxs := ih (fun ch hch => h ch (List.mem_cons_of_mem x hch))
      show geom26 (xs.length + 1) ≤ (x.toNat - 64) * 26 ^ xs.length + letterVal xs
      show 26 * geom26 xs.length + 1 ≤ _
      have hpow := geom26_pow xs.length
      have hdv : 1 ≤ x.toNat - 64 := by omega
      calc 26 * geom26 xs.length + 1
          ≤ 26 ^ xs.length + geom26 xs.length := by omega
        _ ≤ (x.toNat - 64) * 26 ^ xs.length + letterVal xs := by
            have h1 : 1 * 26 ^ xs.length ≤ (x.toNat - 64) * 26 ^ xs.length :=
              Nat.mul_le_mul_right _ hdv
            omega

theorem letterVal_upper_bound : ∀ l : List Char,
    (∀ ch ∈ l, ch.toNat ≤ 90) → letterVal l ≤ 26 * geom26 l.length := by
  intro l
  induction l with
  | nil => intro _; exact Nat.le_refl 0
  | cons x xs ih =>
      intro h
      have hx := h x (List.mem_cons_self x xs)
      have hxs := ih (fun ch hch => h ch (List.mem_cons_of_mem x hch))
      show (x.toNat - 64) * 26 ^ xs.length + letterVal xs ≤
        26 * geom26 (xs.length + 1)
      have hpow := geom26_pow xs.length
      have hdv : x.toNat - 64 ≤ 26 := by omega
      have h1 : (x.toNat - 64) * 26 ^ xs.length ≤ 26 * 26 ^ xs.length :=
        Nat.mul_le_mul_right _ hdv
      show _ ≤ 26 * (26 * geom26 xs.length + 1)
      omega

theorem pyListLtB_of_letterVal : ∀ a b : List Char, a.length = b.length →
    (∀ ch ∈ a, 65 ≤ ch.toNat ∧ ch.toNat ≤ 90) →
    (∀ ch ∈ b, 65 ≤ ch.toNat ∧ ch.toNat ≤ 90) →
    letterVal a < letterVal b → pyListLtB a b = true := by
  intro a
  induction a with
  | nil =>
      intro b hlen _ _ hv
      cases b with
      | nil => simp [letterVal] at hv
      | cons y ys => cases hlen
  | cons x xs ih =>
      intro b hlen ha hb hv
      cases b with
      | nil => cases hlen
      | cons y ys =>
          have hlen' : xs.length = ys.length := by
            simpa using hlen
          have hx := ha x (List.mem_cons_self x xs)
          have hy := hb y (List.mem_cons_self y ys)
          by_cases hxy : x.toNat < y.toNat
          · simp [pyListLtB, hxy]
          · by_cases hyx : y.toNat < x.toNat
            · exfalso
              have hxsub : (letterVal ys) ≤ 26 * geom26 ys.length :=
                letterVal_upper_bound ys
                  (fun ch hch => (hb ch (List.mem_cons_of_mem y hch)).2)
              have hxslb : geom26 xs.length ≤ letterVal xs :=
                letterVal_lower_bound xs
                  (fun ch hch => (ha ch (List.mem_cons_of_mem x hch)).1)
              have hpow := geom26_pow xs.length
              have hdv : y.toNat - 64 + 1 ≤ x.toNat - 64 := by omega
              have hva : letterVal (x :: xs) =
                  (x.toNat - 64) * 26 ^ xs.length + letterVal xs := rfl
              have hvb : letterVal (y :: ys) =
                  (y.toNat - 64) * 26 ^ ys.length + letterVal ys := rfl
              rw [hva, hvb, ← hlen'] at hv
              have hexp : (y.toNat - 64 + 1) * 26 ^ xs.length =
                  (y.toNat - 64) * 26 ^ xs.length + 26 ^ xs.length := by ring
              have hge : (y.toNat - 64 + 1) * 26 ^ xs.length ≤
                  (x.toNat - 64) * 26 ^ xs.length :=
                Nat.mul_le_mul_right _ hdv
              rw [← hlen'] at hxsub
              omega
            · have heq : x.toNat = y.toNat := by omega
              have hva : letterVal (x :: xs) =
                  (x.toNat - 64) * 26 ^ xs.length + letterVal xs := rfl
              have hvb : letterVal (y :: ys) =
                  (y.toNat - 64) * 26 ^ ys.length + letterVal ys := rfl
              rw [hva, hvb, ← hlen', heq] at hv
              have hrec : letterVal xs < letterVal ys := by omega
              simp [pyListLtB, hxy, hyx,
                ih ys hlen' (fun ch hch => ha ch (List.mem_cons_of_mem x hch))
                  (fun ch hch => hb ch (List.mem_cons_of_mem y hch)) hrec]

theorem pyListLtB_append_right : ∀ (a b t : List Char), a.length = b.length →
    pyListLtB a b = true → pyListLtB (a ++ t) (b ++ t) = true := by
  intro a
  induction a with
  | nil =>
      intro b t hlen hab
      cases b with
      | nil => simp [pyListLtB] at hab
      | cons y ys => cases hlen
  | cons x xs ih =>
      intro b t hlen hab
      cases b with
      | nil => cases hlen
      | cons y ys =>
          have hlen' : xs.length = ys.length := by simpa using hlen
          by_cases hxy : x.toNat < y.toNat
          · simp [pyListLtB, hxy]
          · by_cases hyx : y.toNat < x.toNat
            · simp [pyListLtB, hxy, hyx] at hab
            · have hxs : pyListLtB xs ys = true := by
                simpa [pyListLtB, hxy, hyx] using hab
              simp [pyListLtB, hxy, hyx, ih ys t hlen' hxs]

/-! ## C1 : the consecutive run and the scan loop -/

/-- The addresses of `n` cells of row `r` occupying the strictly consecutive
columns `c, c+1, …, c+n-1`. -/
def consecutiveRun (r c n : Nat) : List String :=
  (List.range n).map (fun i => get_cell_address r (c + i))

theorem consecutiveRun_cons (r c n : Nat) :
    consecutiveRun r c (n + 1) =
      get_cell_address r c :: consecutiveRun r (c + 1) n := by
  unfold consecutiveRun
  rw [List.range_succ_eq_map]
  simp only [List.map_cons, List.map_map, Nat.add_zero]
  congr 1
  apply List.map_congr_left
  intro i _
  show get_cell_address r (c + (i + 1)) = get_cell_address r (c + 1 + i)
  congr 1
  omega

theorem consecutiveRun_concat (r c n : Nat) :
    consecutiveRun r c (n + 1) =
      consecutiveRun r c n ++ [get_cell_address r (c + n)] := by
  unfold consecutiveRun
  rw [List.range_succ, List.map_append]
  rfl

theorem consecutiveRun_length (r c n : Nat) :
    (consecutiveRun r c n).length = n := by
  unfold consecutiveRun
  rw [List.length_map, List.length_range]

theorem consecutiveRun_headI (r c k : Nat) (hk : 1 ≤ k) :
    (consecutiveRun r c k).headI = get_cell_address r c := by
  match k, hk with
  | kk + 1, _ =>
      rw [consecutiveRun_cons]
      rfl

theorem getLastI_concat {l : List String} {a : String} :
    (l ++ [a]).getLastI = a := by
  rw [List.getLastI_eq_getLast?, List.getLast?_concat]

theorem consecutiveRun_getLastI (r c k : Nat) (hk : 1 ≤ k) :
    (consecutiveRun r c k).getLastI = get_cell_address r (c + k - 1) := by
  match k, hk with
  | kk + 1, _ =>
      rw [consecutiveRun_concat, getLastI_concat]
      congr 1

theorem get_column_letter_length (n : Nat) :
    (get_column_letter n).length = (colLetterList n).length := rfl

/-- For a run whose column letters all have the same length, addresses are
strictly increasing in the Python string order. -/
theorem run_address_lt (r c : Nat) {i j : Nat} (hij : i < j)
    (hli : (get_column_letter (c + i)).length = (get_column_letter c).length)
    (hlj : (get_column_letter (c + j)).length = (get_column_letter c).length) :
    pyListLtB (get_cell_address r (c + i)).data
      (get_cell_address r (c + j)).data = true := by
  rw [get_cell_address_data, get_cell_address_data]
  apply pyListLtB_append_right
  · rw [get_column_letter_length, get_column_letter_length] at hli hlj
    rw [hli, hlj]
  · apply pyListLtB_of_letterVal
    · rw [get_column_letter_length, get_column_letter_length] at hli hlj
      rw [hli, hlj]
    · exact colLetterList_chars _
    · exact colLetterList_chars _
    · rw [letterVal_colLetterList, letterVal_colLetterList]
      omega

theorem consecutiveRun_sorted (r c n : Nat)
    (hlen : ∀ i < n,
      (get_column_letter (c + i)).length = (get_column_letter c).length) :
    List.Sorted pyStrLe (consecutiveRun r c n) := by
  unfold consecutiveRun List.Sorted
  rw [List.pairwise_map]
  refine (List.pairwise_lt_range n).imp_of_mem ?_
  intro i j hi hj hij
  have hlt := run_address_lt r c hij
    (hlen i (List.mem_range.mp hi)) (hlen j (List.mem_range.mp hj))
  rw [pyStrLe_iff]
  exact pyListLtB_asymm _ _ hlt

/-- Equation lemma for the cons case of the scan loop. -/
theorem compressScan_cons (a : String) (rest cur : List String) (row : String)
    (colNum : Nat) (ranges : List String) :
    compressScan (a :: rest) cur row colNum ranges =
      if digitsOf a = row ∧ column_letter_to_number (alphasOf a) = colNum + 1 then
        compressScan rest (cur ++ [a]) row
          (column_letter_to_number (alphasOf a)) ranges
      else
        compressScan rest [a] (digitsOf a)
          (column_letter_to_number (alphasOf a))
          (if 3 ≤ cur.length then
            ranges ++ [cur.headI ++ ":" ++ cur.getLastI]
          else ranges ++ cur) := rfl

/-- Running the scan over the tail of a sorted consecutive run: the current
range only ever extends, and the final flush emits one `first:last` range for
total size ≥ 3 and the individual addresses otherwise. -/
theorem compressScan_run (r c : Nat) :
    ∀ (mm k : Nat), 1 ≤ k → ∀ (ranges : List String),
      compressScan (consecutiveRun r (c + k) mm) (consecutiveRun r c k)
          (pyNatRepr r) (c + k - 1) ranges =
        ranges ++ (if 3 ≤ k + mm then
          [get_cell_address r c ++ ":" ++ get_cell_address r (c + k + mm - 1)]
        else consecutiveRun r c (k + mm)) := by
  intro mm
  induction mm with
  | zero =>
      intro k hk ranges
      show (if 3 ≤ (consecutiveRun r c k).length then
          ranges ++ [(consecutiveRun r c k).headI ++ ":" ++
            (consecutiveRun r c k).getLastI]
        else ranges ++ consecutiveRun r c k) = _
      rw [consecutiveRun_length, consecutiveRun_headI r c k hk,
        consecutiveRun_getLastI r c k hk]
      by_cases h3 : 3 ≤ k
      · rw [if_pos h3, if_pos (by omega : 3 ≤ k + 0)]
        have : c + k + 0 - 1 = c + k - 1 := by omega
        rw [this]
      · rw [if_neg h3, if_neg (by omega : ¬ 3 ≤ k + 0)]
        have : k + 0 = k := by omega
        rw [this]
  | succ mmn ih =>
      intro k hk ranges
      rw [consecutiveRun_cons, compressScan_cons]
      rw [if_pos ⟨digitsOf_address r (c + k), by
        rw [colnum_address]
        omega⟩]
      rw [colnum_address, ← consecutiveRun_concat]
      have IH := ih (k + 1) (by omega) ranges
      rw [show (k + 1) + mmn = k + (mmn + 1) from by omega,
        show c + (k + 1) + mmn - 1 = c + k + (mmn + 1) - 1 from by omega] at IH
      exact IH

/-- C1 (amended): for every list of distinct addresses lying in one row with
strictly consecutive columns *whose column letters all have the same length*,
`_compress_address_ranges` yields exactly one range `first:last` when the
list has ≥ 3 members and the addresses individually (in sorted order) when it
has < 3.  (Without the equal-letter-length proviso the lexicographic sort
breaks column order at letter-length boundaries — see the counterexample at
columns Y, Z, AA.) -/
theorem C1_range_compression (r c n : Nat) (hr : 1 ≤ r) (hc : 1 ≤ c)
    (hlen : ∀ i < n,
      (get_column_letter (c + i)).length = (get_column_letter c).length)
    (l : List String) (hperm : l.Perm (consecutiveRun r c n)) :
    compress_address_ranges l =
      if 3 ≤ n then
        [get_cell_address r c ++ ":" ++ get_cell_address r (c + n - 1)]
      else consecutiveRun r c n := by
  have _ := hr
  have hsorted : List.Sorted pyStrLe (consecutiveRun r c n) :=
    consecutiveRun_sorted r c n hlen
  have hsort_eq : pySortStrings l = consecutiveRun r c n :=
    List.eq_of_perm_of_sorted ((List.perm_insertionSort pyStrLe l).trans hperm)
      (List.sorted_insertionSort pyStrLe l) hsorted
  unfold compress_address_ranges
  rw [hsort_eq]
  cases n with
  | zero =>
      rw [show consecutiveRun r c 0 = [] from by simp [consecutiveRun]]
      rw [if_neg (by omega)]
  | succ nn =>
      rw [consecutiveRun_cons]
      show compressScan (consecutiveRun r (c + 1) nn) [get_cell_address r c]
          (digitsOf (get_cell_address r c))
          (column_letter_to_number (alphasOf (get_cell_address r c))) [] = _
      rw [digitsOf_address, colnum_address]
      have hrun1 : ([get_cell_address r c] : List String) =
          consecutiveRun r c 1 := rfl
      rw [hrun1]
      have := compressScan_run r c nn 1 (by omega) []
      rw [show c + 1 - 1 = c from by omega] at this
      rw [this, List.nil_append]
      rw [show 1 + nn = nn + 1 from by omega]
      rw [show c + 1 + nn - 1 = c + (nn + 1) - 1 from by omega]
      rw [consecutiveRun_cons]

/-- C1 counterexample: the columns Y, Z, AA (25, 26, 27) of row 1 are
strictly consecutive and the list has 3 members, yet compression yields the
three addresses unmerged (sorted lexicographically as AA1, Y1, Z1) instead of
the single claimed range `Y1:AA1`. -/
theorem C1_counterexample :
    ["Y1", "Z1", "AA1"] = consecutiveRun 1 25 3 ∧
    compress_address_ranges ["Y1", "Z1", "AA1"] = ["AA1", "Y1", "Z1"] ∧
    compress_address_ranges ["Y1", "Z1", "AA1"] ≠
      [get_cell_address 1 25 ++ ":" ++ get_cell_address 1 (25 + 3 - 1)] :=
  ⟨rfl, rfl, by decide⟩

/-- Witness for C1 (amended) at row 1, columns 1–3, with the input given in
non-sorted order. -/
theorem C1_range_compression_witness :
    1 ≤ 1 ∧
    (∀ i < 3, (get_column_letter (1 + i)).length =
      (get_column_letter 1).length) ∧
    (["B1", "C1", "A1"] : List String).Perm (consecutiveRun 1 1 3) ∧
    compress_address_ranges ["B1", "C1", "A1"] =
      (if 3 ≤ 3 then
        [get_cell_address 1 1 ++ ":" ++ get_cell_address 1 (1 + 3 - 1)]
      else consecutiveRun 1 1 3) :=
  have hperm : (["B1", "C1", "A1"] : List String).Perm (consecutiveRun 1 1 3) := by
    have h : consecutiveRun 1 1 3 = ["A1", "B1", "C1"] := rfl
    rw [h]
    decide
  ⟨by decide, by decide, hperm,
    C1_range_compression 1 1 3 (by decide) (by decide) (by decide) _ hperm⟩

/-! ## C2 : rectangle detection validity -/

/-- A rectangle as emitted by `_find_rectangles`, in coordinates. -/
structure RectSpec where
  r1 : Nat
  c1 : Nat
  r2 : Nat
  c2 : Nat

/-- The `topLeft:bottomRight` rendering of a rectangle. -/
def RectSpec.renders (q : RectSpec) : String :=
  get_cell_address q.r1 q.c1 ++ ":" ++ get_cell_address q.r2 q.c2

/-- The positions covered by a rectangle. -/
def RectSpec.covers (q : RectSpec) (p : Nat × Nat) : Prop :=
  q.r1 ≤ p.1 ∧ p.1 ≤ q.r2 ∧ q.c1 ≤ p.2 ∧ p.2 ≤ q.c2

theorem parse_coord_address (r c : Nat) :
    parse_coord (get_cell_address r c) =
      ⟨r, c, get_cell_address r c⟩ := by
  unfold parse_coord
  rw [show (get_cell_address r c).data.filter pyIsDigit = (pyNatRepr r).data
    from by
      rw [get_cell_address_data, List.filter_append,
        filter_all_false colLetter_chars_not_digit,
        filter_all_true repr_chars_digit, List.nil_append]]
  rw [pyIntOfDigits_pyNatRepr, colnum_address]

theorem widthScan_spec (sr sc : Nat) :
    ∀ (l : List CoordEntry) (w0 : Nat) (rem : List String),
      w0 ≤ widthScan sr sc l w0 rem ∧
      ∀ j, w0 ≤ j → j < widthScan sr sc l w0 rem →
        ∃ e ∈ l, e.row = sr ∧ e.col = sc + j ∧ e.addr ∈ rem := by
  intro l
  induction l with
  | nil =>
      intro w0 rem
      exact ⟨Nat.le_refl _, fun j hj hj2 => absurd hj2 (by
        show ¬ j < w0
        omega)⟩
  | cons e rest ih =>
      intro w0 rem
      by_cases hg : e.row = sr ∧ e.col = sc + w0 ∧ e.addr ∈ rem
      · have heq : widthScan sr sc (e :: rest) w0 rem =
            widthScan sr sc rest (w0 + 1) rem := by
          show (if e.row = sr ∧ e.col = sc + w0 ∧ e.addr ∈ rem then
              widthScan sr sc rest (w0 + 1) rem
            else if sr < e.row then w0 else widthScan sr sc rest w0 rem) = _
          rw [if_pos hg]
        obtain ⟨ihle, ihspec⟩ := ih (w0 + 1) rem
        rw [heq]
        refine ⟨by omega, ?_⟩
        intro j hj hj2
        by_cases hjw : j = w0
        · subst hjw
          exact ⟨e, List.mem_cons_self _ _, hg.1, hg.2.1, hg.2.2⟩
        · obtain ⟨e2, he2, hp⟩ := ihspec j (by omega) hj2
          exact ⟨e2, List.mem_cons_of_mem _ he2, hp⟩
      · by_cases hlt : sr < e.row
        · have heq : widthScan sr sc (e :: rest) w0 rem = w0 := by
            show (if e.row = sr ∧ e.col = sc + w0 ∧ e.addr ∈ rem then
                widthScan sr sc rest (w0 + 1) rem
              else if sr < e.row then w0 else widthScan sr sc rest w0 rem) = _
            rw [if_neg hg, if_pos hlt]
          rw [heq]
          exact ⟨Nat.le_refl _, fun j hj hj2 => absurd hj2 (by omega)⟩
        · have heq : widthScan sr sc (e :: rest) w0 rem =
              widthScan sr sc rest w0 rem := by
            show (if e.row = sr ∧ e.col = sc + w0 ∧ e.addr ∈ rem then
                widthScan sr sc rest (w0 + 1) rem
              else if sr < e.row then w0 else widthScan sr sc rest w0 rem) = _
            rw [if_neg hg, if_neg hlt]
          rw [heq]
          obtain ⟨ihle, ihspec⟩ := ih w0 rem
          refine ⟨ihle, ?_⟩
          intro j hj hj2
          obtain ⟨e2, he2, hp⟩ := ihspec j hj hj2
          exact ⟨e2, List.mem_cons_of_mem _ he2, hp⟩

theorem heightScanGo_spec (all : List CoordEntry) (sr sc w : Nat)
    (rem : List String) :
    ∀ (fuel height : Nat),
      height ≤ heightScanGo all sr sc w rem height fuel ∧
      ∀ i, height ≤ i → i < heightScanGo all sr sc w rem height fuel →
        rowOkB all (sr + i) sc w rem = true := by
  intro fuel
  induction fuel with
  | zero =>
      intro height
      exact ⟨Nat.le_refl _, fun i h1 h2 => absurd h2 (by
        show ¬ i < height
        omega)⟩
  | succ f ih =>
      intro height
      by_cases hok : rowOkB all (sr + height) sc w rem = true
      · have heq : heightScanGo all sr sc w rem height (f + 1) =
            heightScanGo all sr sc w rem (height + 1) f := by
          show (if rowOkB all (sr + height) sc w rem = true then
              heightScanGo all sr sc w rem (height + 1) f
            else height) = _
          rw [if_pos hok]
        rw [heq]
        obtain ⟨ihle, ihsp⟩ := ih (height + 1)
        refine ⟨by omega, ?_⟩
        intro i h1 h2
        by_cases hi : i = height
        · subst hi; exact hok
        · exact ihsp i (by omega) h2
      · have heq : heightScanGo all sr sc w rem height (f + 1) = height := by
          show (if rowOkB all (sr + height) sc w rem = true then
              heightScanGo all sr sc w rem (height + 1) f
            else height) = _
          rw [if_neg hok]
        rw [heq]
        exact ⟨Nat.le_refl _, fun i h1 h2 => absurd h2 (by omega)⟩

theorem rowOkB_spec {all : List CoordEntry} {rr sc w : Nat}
    {rem : List String} (h : rowOkB all rr sc w rem = true) :
    ∀ j < w, ∃ e2 ∈ all, e2.row = rr ∧ e2.col = sc + j ∧ e2.addr ∈ rem := by
  intro j hj
  unfold rowOkB at h
  rw [List.all_eq_true] at h
  have hx := h j (List.mem_range.mpr hj)
  cases hfind : List.find?
      (fun e2 => decide (e2.row = rr) && decide (e2.col = sc + j)) all with
  | none => rw [hfind] at hx; cases hx
  | some e2 =>
      rw [hfind] at hx
      have hpred := List.find?_some hfind
      simp only [Bool.and_eq_true, decide_eq_true_eq] at hpred
      have hmem := List.mem_of_find?_eq_some hfind
      exact ⟨e2, hmem, hpred.1, hpred.2, by simpa using hx⟩

/-- Two rectangles cover no common position. -/
def rectsDisjoint (q q' : RectSpec) : Prop :=
  ∀ p : Nat × Nat, ¬(q.covers p ∧ q'.covers p)

/-- Equation lemma for the cons case of the corner loop. -/
theorem rectLoop_cons (all : List CoordEntry) (e : CoordEntry)
    (rest : List CoordEntry) (remaining rects : List String) :
    rectLoop all (e :: rest) remaining rects =
      if e.addr ∈ remaining then
        (let w := widthScan e.row e.col rest 1 remaining
         if w < 2 then rectLoop all rest remaining rects
         else
           let h := heightScan all e.row e.col w remaining
           if h < 2 then rectLoop all rest remaining rects
           else
             rectLoop all rest
               (remaining.filter (fun a =>
                 !(all.any (fun e2 => decide (e2.addr = a) &&
                     decide (e.row ≤ e2.row) &&
                     decide (e2.row ≤ e.row + h - 1) &&
                     decide (e.col ≤ e2.col) &&
                     decide (e2.col ≤ e.col + w - 1)))))
               (rects ++ [e.addr ++ ":" ++
                 get_cell_address (e.row + h - 1) (e.col + w - 1)]))
      else rectLoop all rest remaining rects := rfl

theorem rectLoop_invariant (ps : List (Nat × Nat)) (all : List CoordEntry)
    (hall : ∀ e ∈ all, (e.row, e.col) ∈ ps ∧
      e.addr = get_cell_address e.row e.col) :
    ∀ (cur : List CoordEntry) (remaining rects : List String)
      (rdata : List RectSpec),
      (∀ e ∈ cur, e ∈ all) →
      rects = rdata.map RectSpec.renders →
      (∀ q ∈ rdata, q.r1 + 1 ≤ q.r2 ∧ q.c1 + 1 ≤ q.c2) →
      (∀ q ∈ rdata, ∀ p : Nat × Nat, q.covers p → p ∈ ps) →
      List.Pairwise rectsDisjoint rdata →
      (∀ q ∈ rdata, ∀ p : Nat × Nat, q.covers p →
        get_cell_address p.1 p.2 ∉ remaining) →
      ∃ rdata' : List RectSpec,
        (rectLoop all cur remaining rects).1 = rdata'.map RectSpec.renders ∧
        (∀ q ∈ rdata', q.r1 + 1 ≤ q.r2 ∧ q.c1 + 1 ≤ q.c2) ∧
        (∀ q ∈ rdata', ∀ p : Nat × Nat, q.covers p → p ∈ ps) ∧
        List.Pairwise rectsDisjoint rdata' ∧
        (∀ a ∈ (rectLoop all cur remaining rects).2, a ∈ remaining) ∧
        (∀ q ∈ rdata', ∀ p : Nat × Nat, q.covers p →
          get_cell_address p.1 p.2 ∉ (rectLoop all cur remaining rects).2) := by
  intro cur
  induction cur with
  | nil =>
      intro remaining rects rdata _ hrects hdims hcov hdisj hrem
      refine ⟨rdata, hrects, hdims, hcov, hdisj, fun a ha => ha, ?_⟩
      intro q hq p hp
      exact hrem q hq p hp
  | cons e rest ih =>
      intro remaining rects rdata hcur hrects hdims hcov hdisj hrem
      have hrest : ∀ e2 ∈ rest, e2 ∈ all :=
        fun e2 h2 => hcur e2 (List.mem_cons_of_mem _ h2)
      rw [rectLoop_cons]
      by_cases hmem : e.addr ∈ remaining
      · rw [if_pos hmem]
        dsimp only
        by_cases hw : widthScan e.row e.col rest 1 remaining < 2
        · rw [if_pos hw]
          exact ih remaining rects rdata hrest hrects hdims hcov hdisj hrem
        · rw [if_neg hw]
          by_cases hh : heightScan all e.row e.col
              (widthScan e.row e.col rest 1 remaining) remaining < 2
          · rw [if_pos hh]
            exact ih remaining rects rdata hrest hrects hdims hcov hdisj hrem
          · rw [if_neg hh]
            set w := widthScan e.row e.col rest 1 remaining with hwdef
            set h := heightScan all e.row e.col w remaining with hhdef
            have hw2 : 2 ≤ w := by omega
            have hh2 : 2 ≤ h := by omega
            -- every position of the rectangle has an unclaimed entry in `all`
            have cellsInRect : ∀ rr cc, e.row ≤ rr → rr ≤ e.row + h - 1 →
                e.col ≤ cc → cc ≤ e.col + w - 1 →
                ∃ e2 ∈ all, e2.row = rr ∧ e2.col = cc ∧ e2.addr ∈ remaining := by
              intro rr cc h1 h2 h3 h4
              obtain ⟨hwle, hwspec⟩ := widthScan_spec e.row e.col rest 1 remaining
              by_cases hrr : rr = e.row
              · subst hrr
                by_cases hcc : cc = e.col
                · subst hcc
                  exact ⟨e, hcur e (List.mem_cons_self _ _), rfl, rfl, hmem⟩
                · obtain ⟨e2, he2, hp1, hp2, hp3⟩ :=
                    hwspec (cc - e.col) (by omega) (by omega)
                  exact ⟨e2, hrest e2 he2, hp1, by omega, hp3⟩
              · obtain ⟨hhle, hhspec⟩ :=
                  heightScanGo_spec all e.row e.col w remaining 99 1
                have hok : rowOkB all (e.row + (rr - e.row)) e.col w remaining
                    = true := by
                  apply hhspec
                  · omega
                  · show rr - e.row < heightScanGo all e.row e.col w remaining 1 99
                    have : heightScan all e.row e.col w remaining =
                      heightScanGo all e.row e.col w remaining 1 99 := rfl
                    rw [← this, ← hhdef]
                    omega
                obtain ⟨e2, he2, hp1, hp2, hp3⟩ :=
                  rowOkB_spec hok (cc - e.col) (by omega)
                exact ⟨e2, he2, by omega, by omega, hp3⟩
            set q := RectSpec.mk e.row e.col (e.row + h - 1) (e.col + w - 1)
              with hqdef
            have hqr1 : q.r1 = e.row := rfl
            have hqc1 : q.c1 = e.col := rfl
            have hqr2 : q.r2 = e.row + h - 1 := rfl
            have hqc2 : q.c2 = e.col + w - 1 := rfl
            have hqcov : ∀ p : Nat × Nat, q.covers p →
                ∃ e2 ∈ all, e2.row = p.1 ∧ e2.col = p.2 ∧ e2.addr ∈ remaining := by
              intro p hp
              obtain ⟨h1, h2, h3, h4⟩ := hp
              exact cellsInRect p.1 p.2 h1 h2 h3 h4
            have hqaddr : ∀ p : Nat × Nat, q.covers p →
                get_cell_address p.1 p.2 ∈ remaining := by
              intro p hp
              obtain ⟨e2, he2, h1, h2, h3⟩ := hqcov p hp
              have := (hall e2 he2).2
              rw [h1, h2] at this
              rw [← this]
              exact h3
            set remaining' := remaining.filter (fun a =>
              !(all.any (fun e2 => decide (e2.addr = a) &&
                  decide (e.row ≤ e2.row) && decide (e2.row ≤ e.row + h - 1) &&
                  decide (e.col ≤ e2.col) && decide (e2.col ≤ e.col + w - 1))))
              with hremdef
            have hsub : ∀ a ∈ remaining', a ∈ remaining := by
              intro a ha
              exact (List.mem_filter.mp ha).1
            have hqgone : ∀ p : Nat × Nat, q.covers p →
                get_cell_address p.1 p.2 ∉ remaining' := by
              intro p hp hin
              obtain ⟨e2, he2, h1, h2, h3⟩ := hqcov p hp
              have he2addr : e2.addr = get_cell_address p.1 p.2 := by
                have := (hall e2 he2).2
                rw [h1, h2] at this
                exact this
              have hflt := (List.mem_filter.mp hin).2
              rw [Bool.not_eq_true'] at hflt
              rw [List.any_eq_false] at hflt
              apply hflt e2 he2
              obtain ⟨hc1, hc2, hc3, hc4⟩ := hp
              simp only [Bool.and_eq_true, decide_eq_true_eq]
              refine ⟨⟨⟨⟨he2addr, by omega⟩, by omega⟩, by omega⟩, by omega⟩
            have hrectstr : e.addr ++ ":" ++
                get_cell_address (e.row + h - 1) (e.col + w - 1) =
                  q.renders := by
              have := (hall e (hcur e (List.mem_cons_self _ _))).2
              rw [this]
              rfl
            have hnewrects : rects ++ [e.addr ++ ":" ++
                get_cell_address (e.row + h - 1) (e.col + w - 1)] =
                  (rdata ++ [q]).map RectSpec.renders := by
              rw [List.map_append, hrects, hrectstr]
              rfl
            have hnewdims : ∀ q' ∈ rdata ++ [q],
                q'.r1 + 1 ≤ q'.r2 ∧ q'.c1 + 1 ≤ q'.c2 := by
              intro q' hq'
              rcases List.mem_append.mp hq' with hq' | hq'
              · exact hdims q' hq'
              · have : q' = q := by
                  cases hq' with
                  | head => rfl
                  | tail _ h2 => cases h2
                subst this
                constructor
                · show e.row + 1 ≤ e.row + h - 1
                  omega
                · show e.col + 1 ≤ e.col + w - 1
                  omega
            have hnewcov : ∀ q' ∈ rdata ++ [q], ∀ p : Nat × Nat,
                q'.covers p → p ∈ ps := by
              intro q' hq' p hp
              rcases List.mem_append.mp hq' with hq' | hq'
              · exact hcov q' hq' p hp
              · have : q' = q := by
                  cases hq' with
                  | head => rfl
                  | tail _ h2 => cases h2
                subst this
                obtain ⟨e2, he2, h1, h2, _⟩ := hqcov p hp
                have := (hall e2 he2).1
                rw [h1, h2] at this
                simpa using this
            have hnewdisj : List.Pairwise rectsDisjoint (rdata ++ [q]) := by
              rw [List.pairwise_append]
              refine ⟨hdisj, List.pairwise_singleton _ _, ?_⟩
              intro q' hq' q'' hq''
              have : q'' = q := by
                cases hq'' with
                | head => rfl
                | tail _ h2 => cases h2
              subst this
              intro p ⟨hp1, hp2⟩
              exact hrem q' hq' p hp1 (hqaddr p hp2)
            have hnewrem : ∀ q' ∈ rdata ++ [q], ∀ p : Nat × Nat,
                q'.covers p → get_cell_address p.1 p.2 ∉ remaining' := by
              intro q' hq' p hp
              rcases List.mem_append.mp hq' with hq' | hq'
              · intro hin
                exact hrem q' hq' p hp (hsub _ hin)
              · have : q' = q := by
                  cases hq' with
                  | head => rfl
                  | tail _ h2 => cases h2
                subst this
                exact hqgone p hp
            obtain ⟨rdata', ih1, ih2, ih3, ih4, ih5, ih6⟩ :=
              ih remaining' (rects ++ [e.addr ++ ":" ++
                get_cell_address (e.row + h - 1) (e.col + w - 1)])
                (rdata ++ [q]) hrest hnewrects hnewdims hnewcov hnewdisj hnewrem
            refine ⟨rdata', ih1, ih2, ih3, ih4, ?_, ih6⟩
            intro a ha
            exact hsub _ (ih5 a ha)
      · rw [if_neg hmem]
        exact ih remaining rects rdata hrest hrects hdims hcov hdisj hrem

/-- A string emitted by address-range compression is either an input address
or a `first:last` range over one row all of whose member addresses are
inputs. -/
def coveredByEntry (l : List String) (s : String) : Prop :=
  s ∈ l ∨ ∃ r c1 c2, c1 ≤ c2 ∧
    s = get_cell_address r c1 ++ ":" ++ get_cell_address r c2 ∧
    ∀ c', c1 ≤ c' → c' ≤ c2 → get_cell_address r c' ∈ l

theorem flush_good (l : List String) (r c1 k : Nat) (hk : 1 ≤ k)
    (hmem : ∀ c', c1 ≤ c' → c' < c1 + k → get_cell_address r c' ∈ l)
    (ranges : List String) (hranges : ∀ s ∈ ranges, coveredByEntry l s) :
    ∀ s ∈ (if 3 ≤ (consecutiveRun r c1 k).length then
        ranges ++ [(consecutiveRun r c1 k).headI ++ ":" ++
          (consecutiveRun r c1 k).getLastI]
      else ranges ++ consecutiveRun r c1 k), coveredByEntry l s := by
  rw [consecutiveRun_length, consecutiveRun_headI r c1 k hk,
    consecutiveRun_getLastI r c1 k hk]
  intro s hs
  by_cases h3 : 3 ≤ k
  · rw [if_pos h3] at hs
    rcases List.mem_append.mp hs with h | h
    · exact hranges s h
    · have hseq : s = get_cell_address r c1 ++ ":" ++
          get_cell_address r (c1 + k - 1) := by simpa using h
      right
      exact ⟨r, c1, c1 + k - 1, by omega, hseq,
        fun c' h1 h2 => hmem c' h1 (by omega)⟩
  · rw [if_neg h3] at hs
    rcases List.mem_append.mp hs with h | h
    · exact hranges s h
    · left
      unfold consecutiveRun at h
      obtain ⟨i, hi, hieq⟩ := List.mem_map.mp h
      rw [← hieq]
      exact hmem (c1 + i) (by omega) (by
        have := List.mem_range.mp hi
        omega)

theorem compressScan_covers (l : List String)
    (hwl : ∀ a ∈ l, ∃ rr cc, a = get_cell_address rr cc) :
    ∀ (rest : List String), (∀ a ∈ rest, a ∈ l) →
      ∀ (r c1 k : Nat), 1 ≤ k →
      (∀ c', c1 ≤ c' → c' < c1 + k → get_cell_address r c' ∈ l) →
      ∀ (ranges : List String), (∀ s ∈ ranges, coveredByEntry l s) →
      ∀ s ∈ compressScan rest (consecutiveRun r c1 k) (pyNatRepr r)
        (c1 + k - 1) ranges, coveredByEntry l s := by
  intro rest
  induction rest with
  | nil =>
      intro _ r c1 k hk hrun ranges hranges s hs
      replace hs : s ∈ (if 3 ≤ (consecutiveRun r c1 k).length then
          ranges ++ [(consecutiveRun r c1 k).headI ++ ":" ++
            (consecutiveRun r c1 k).getLastI]
        else ranges ++ consecutiveRun r c1 k) := hs
      exact flush_good l r c1 k hk hrun ranges hranges s hs
  | cons a rest' ih =>
      intro hin r c1 k hk hrun ranges hranges s hs
      have hal : a ∈ l := hin a (List.mem_cons_self _ _)
      obtain ⟨ra, ca, haddr⟩ := hwl a hal
      have hin' : ∀ x ∈ rest', x ∈ l :=
        fun x hx => hin x (List.mem_cons_of_mem _ hx)
      rw [compressScan_cons] at hs
      by_cases hg : digitsOf a = pyNatRepr r ∧
          column_letter_to_number (alphasOf a) = (c1 + k - 1) + 1
      · rw [if_pos hg] at hs
        have hra : r = ra := by
          have hh := hg.1
          rw [haddr, digitsOf_address] at hh
          exact (pyNatRepr_injective hh).symm
        have hca : ca = c1 + k := by
          have hh := hg.2
          rw [haddr, colnum_address] at hh
          omega
        subst hra
        subst hca
        rw [haddr, ← consecutiveRun_concat] at hs
        have hcn : column_letter_to_number
            (alphasOf (get_cell_address r (c1 + k))) = c1 + (k + 1) - 1 := by
          rw [colnum_address]
          omega
        rw [hcn] at hs
        apply ih hin' r c1 (k + 1) (by omega) ?_ ranges hranges s hs
        intro c' h1 h2
        by_cases hc' : c' = c1 + k
        · rw [hc', ← haddr]
          exact hal
        · exact hrun c' h1 (by omega)
      · rw [if_neg hg] at hs
        have h1 : ([a] : List String) = consecutiveRun ra ca 1 := by
          rw [haddr]
          rfl
        have hd : digitsOf a = pyNatRepr ra := by rw [haddr, digitsOf_address]
        have hc : column_letter_to_number (alphasOf a) = ca := by
          rw [haddr, colnum_address]
        rw [h1, hd, hc] at hs
        replace hs : s ∈ compressScan rest' (consecutiveRun ra ca 1)
            (pyNatRepr ra) (ca + 1 - 1)
            (if 3 ≤ (consecutiveRun r c1 k).length then
              ranges ++ [(consecutiveRun r c1 k).headI ++ ":" ++
                (consecutiveRun r c1 k).getLastI]
            else ranges ++ consecutiveRun r c1 k) := hs
        exact ih hin' ra ca 1 (Nat.le_refl 1)
          (fun c' hh1 hh2 => by
            have hcc : c' = ca := by omega
            rw [hcc, ← haddr]
            exact hal)
          _ (flush_good l r c1 k hk hrun ranges hranges) s hs

theorem compress_covers (l : List String)
    (hwf : ∀ a ∈ l, ∃ r c, a = get_cell_address r c) :
    ∀ s ∈ compress_address_ranges l, coveredByEntry l s := by
  intro s hs
  unfold compress_address_ranges at hs
  have hperm := List.perm_insertionSort pyStrLe l
  cases hsort : pySortStrings l with
  | nil =>
      rw [hsort] at hs
      replace hs : s ∈ ([] : List String) := hs
      cases hs
  | cons a0 rest =>
      rw [hsort] at hs
      have hsorted_mem : ∀ x ∈ a0 :: rest, x ∈ l := by
        intro x hx
        apply hperm.subset
        rw [show List.insertionSort pyStrLe l = pySortStrings l from rfl, hsort]
        exact hx
      obtain ⟨r0, c0, ha0⟩ := hwf a0 (hsorted_mem a0 (List.mem_cons_self _ _))
      replace hs : s ∈ compressScan rest [a0] (digitsOf a0)
          (column_letter_to_number (alphasOf a0)) [] := hs
      have h1 : ([a0] : List String) = consecutiveRun r0 c0 1 := by
        rw [ha0]
        rfl
      rw [h1, show digitsOf a0 = pyNatRepr r0 from by rw [ha0, digitsOf_address],
        show column_letter_to_number (alphasOf a0) = c0 from by
          rw [ha0, colnum_address]] at hs
      replace hs : s ∈ compressScan rest (consecutiveRun r0 c0 1)
          (pyNatRepr r0) (c0 + 1 - 1) [] := hs
      exact compressScan_covers l hwf rest
        (fun x hx => hsorted_mem x (List.mem_cons_of_mem _ hx)) r0 c0 1
        (Nat.le_refl 1)
        (fun c' hh1 hh2 => by
          have hcc : c' = c0 := by omega
          rw [hcc, ← ha0]
          exact hsorted_mem a0 (List.mem_cons_self _ _))
        [] (fun s' hs' => absurd hs' (List.not_mem_nil s')) s hs

/-- C2: for every input list of distinct well-formed addresses, the
rectangles emitted by `_find_rectangles` all have width ≥ 2 and height ≥ 2
(`q.r1 + 1 ≤ q.r2 ∧ q.c1 + 1 ≤ q.c2`), every position covered by an emitted
rectangle was present in the input, no position is covered by two emitted
rectangles, the leftover set holds only input addresses, no covered address
is in the leftover set, and each leftover entry after range compression is a
leftover address or a one-row range all of whose members are leftover
addresses; when at least 4 addresses are supplied the full output of
`find_rectangles` is exactly these rectangle renderings followed by the
compressed leftovers. -/
theorem C2_rectangle_validity (ps : List (Nat × Nat)) (addrs : List String)
    (haddr : addrs = ps.map fun p => get_cell_address p.1 p.2)
    (_hnd : addrs.Nodup) :
    ∃ rdata' : List RectSpec,
      (find_rectangles_core addrs).1 = rdata'.map RectSpec.renders ∧
      (∀ q ∈ rdata', q.r1 + 1 ≤ q.r2 ∧ q.c1 + 1 ≤ q.c2) ∧
      (∀ q ∈ rdata', ∀ p : Nat × Nat, q.covers p → p ∈ ps) ∧
      List.Pairwise rectsDisjoint rdata' ∧
      (∀ a ∈ (find_rectangles_core addrs).2, a ∈ addrs) ∧
      (∀ q ∈ rdata', ∀ p : Nat × Nat, q.covers p →
        get_cell_address p.1 p.2 ∉ (find_rectangles_core addrs).2) ∧
      (∀ s ∈ compress_address_ranges (find_rectangles_core addrs).2,
        coveredByEntry (find_rectangles_core addrs).2 s) ∧
      (4 ≤ addrs.length → find_rectangles addrs =
        rdata'.map RectSpec.renders ++
          (if (find_rectangles_core addrs).2.isEmpty then []
           else compress_address_ranges (find_rectangles_core addrs).2)) := by
  have hmm : ∀ e ∈ List.insertionSort coordLe (addrs.map parse_coord),
      (e.row, e.col) ∈ ps ∧ e.addr = get_cell_address e.row e.col := by
    intro e he
    have he2 : e ∈ addrs.map parse_coord :=
      (List.perm_insertionSort coordLe (addrs.map parse_coord)).subset he
    obtain ⟨a, ha, hpa⟩ := List.mem_map.mp he2
    rw [haddr] at ha
    obtain ⟨p, hp, hap⟩ := List.mem_map.mp ha
    have hap' : get_cell_address p.1 p.2 = a := hap
    rw [← hap', parse_coord_address] at hpa
    rw [← hpa]
    exact ⟨by simpa using hp, rfl⟩
  have hcore : find_rectangles_core addrs =
      rectLoop (List.insertionSort coordLe (addrs.map parse_coord))
        (List.insertionSort coordLe (addrs.map parse_coord))
        ((List.insertionSort coordLe (addrs.map parse_coord)).map
          CoordEntry.addr)
        [] := rfl
  obtain ⟨rdata', h1, h2, h3, h4, h5, h6⟩ :=
    rectLoop_invariant ps (List.insertionSort coordLe (addrs.map parse_coord))
      hmm (List.insertionSort coordLe (addrs.map parse_coord))
      ((List.insertionSort coordLe (addrs.map parse_coord)).map
        CoordEntry.addr)
      [] [] (fun e he => he) rfl
      (fun q hq => absurd hq (List.not_mem_nil q))
      (fun q hq => absurd hq (List.not_mem_nil q))
      List.Pairwise.nil
      (fun q hq => absurd hq (List.not_mem_nil q))
  have h1' : (find_rectangles_core addrs).1 = rdata'.map RectSpec.renders := by
    rw [hcore]
    exact h1
  have hremsub : ∀ a ∈ (find_rectangles_core addrs).2, a ∈ addrs := by
    intro a ha
    rw [hcore] at ha
    have ha2 := h5 a ha
    obtain ⟨e, he, hea⟩ := List.mem_map.mp ha2
    obtain ⟨hps, headdr⟩ := hmm e he
    rw [← hea]
    show e.addr ∈ addrs
    rw [headdr, haddr]
    exact List.mem_map.mpr ⟨(e.row, e.col), hps, rfl⟩
  refine ⟨rdata', h1', h2, h3, h4, hremsub, ?_, ?_, ?_⟩
  · intro q hq p hp
    rw [hcore]
    exact h6 q hq p hp
  · intro s hs
    refine compress_covers _ ?_ s hs
    intro a ha
    have hin := hremsub a ha
    rw [haddr] at hin
    obtain ⟨p, hp, hap⟩ := List.mem_map.mp hin
    exact ⟨p.1, p.2, hap.symm⟩
  · intro hlen
    show find_rectangles addrs = _
    unfold find_rectangles
    rw [if_neg (by omega)]
    rw [← h1']

theorem C2_rectangle_validity_witness :
    (["A1", "B1", "A2", "B2"] : List String) =
      ([(1, 1), (1, 2), (2, 1), (2, 2)] : List (Nat × Nat)).map
        (fun p => get_cell_address p.1 p.2) ∧
    (["A1", "B1", "A2", "B2"] : List String).Nodup ∧
    ∃ rdata' : List RectSpec,
      (find_rectangles_core ["A1", "B1", "A2", "B2"]).1 =
        rdata'.map RectSpec.renders ∧
      (∀ q ∈ rdata', q.r1 + 1 ≤ q.r2 ∧ q.c1 + 1 ≤ q.c2) ∧
      (∀ q ∈ rdata', ∀ p : Nat × Nat, q.covers p →
        p ∈ ([(1, 1), (1, 2), (2, 1), (2, 2)] : List (Nat × Nat))) ∧
      List.Pairwise rectsDisjoint rdata' ∧
      (∀ a ∈ (find_rectangles_core ["A1", "B1", "A2", "B2"]).2,
        a ∈ (["A1", "B1", "A2", "B2"] : List String)) ∧
      (∀ q ∈ rdata', ∀ p : Nat × Nat, q.covers p →
        get_cell_address p.1 p.2 ∉
          (find_rectangles_core ["A1", "B1", "A2", "B2"]).2) ∧
      (∀ s ∈ compress_address_ranges
          (find_rectangles_core ["A1", "B1", "A2", "B2"]).2,
        coveredByEntry (find_rectangles_core ["A1", "B1", "A2", "B2"]).2 s) ∧
      (4 ≤ (["A1", "B1", "A2", "B2"] : List String).length →
        find_rectangles ["A1", "B1", "A2", "B2"] =
          rdata'.map RectSpec.renders ++
            (if (find_rectangles_core ["A1", "B1", "A2", "B2"]).2.isEmpty
             then []
             else compress_address_ranges
               (find_rectangles_core ["A1", "B1", "A2", "B2"]).2)) :=
  ⟨by decide, by decide,
    C2_rectangle_validity [(1, 1), (1, 2), (2, 1), (2, 2)]
      ["A1", "B1", "A2", "B2"] (by decide) (by decide)⟩
